import Mathlib

/-!
# Minos: virtual interrupt bookkeeping (`include/minos/virq.h`) and the XNU
guest loader (`tools/mvm/os/os_xnu.c`)

Part I holds the definitions (the embedding of the C code), part II the
lemmas and theorems.  C `uint32_t` / `uint64_t` values are natural numbers
reduced modulo `2^32` / `2^64` at every operation that can wrap; C `int`
values are integers, wrapped into the 32-bit signed range where the code
converts or adds.
-/

namespace Minos

/-! ## Part I — definitions -/

/-! ### Machine integers -/

/-- Conversion of an unsigned value to a 32-bit C `int` (two's complement). -/
def toInt32 (n : Nat) : Int :=
  if n % 2 ^ 32 < 2 ^ 31 then ((n % 2 ^ 32 : Nat) : Int)
  else ((n % 2 ^ 32 : Nat) : Int) - 2 ^ 32

/-- C logical double negation `!!x`. -/
def lnotnot (x : Nat) : Int := if x = 0 then 0 else 1

/-! ### `virq.h`: constants -/

def VIRQ_STATE_INACTIVE : Nat := 0x0
def VIRQ_STATE_PENDING : Nat := 0x1
def VIRQ_STATE_ACTIVE : Nat := 0x2
def VIRQ_STATE_ACTIVE_AND_PENDING : Nat := 0x3
def VIRQ_STATE_OFFLINE : Nat := 0x4

def VIRQ_BASE : Nat := 1024
def MAX_VIRQ_NR : Nat := 512

/-- The macro `VIRQ_OFFSET(v)` is `(v - VIRQ_BASE)`; with `v` a `uint32_t` the
subtraction is carried out modulo `2^32`. -/
def VIRQ_OFFSET (v : Nat) : Nat := (v % 2 ^ 32 + (2 ^ 32 - VIRQ_BASE)) % 2 ^ 32

/-- Setting state bits in the `uint8_t state` field: `state | bits`. -/
def state_set (state bits : Nat) : Nat := (state ||| bits) % 256

/-- Clearing state bits in the `uint8_t state` field: `state & ~bits`. -/
def state_clear (state bits : Nat) : Nat := state &&& (255 ^^^ bits)

/-! ### `virq.h`: data -/

/-- The record `struct virq`.  The intrusive `list` member is represented by the slot
identifiers stored in the two lists of `virq_struct`. -/
structure virq where
  h_intno : Nat
  v_intno : Nat
  hw : Nat
  state : Nat
  id : Nat
  pr : Nat
deriving DecidableEq, Repr

instance : Inhabited virq := ⟨⟨0, 0, 0, 0, 0, 0⟩⟩

/-- The state `struct virq_struct`.  The two `list_head`s are lists of slot identifiers
(indices into `virqs`), head first; the spinlock has no sequential content. -/
structure virq_struct where
  active_count : Nat
  pending_hirq : Nat
  pending_virq : Nat
  pending_list : List Nat
  active_list : List Nat
  irq_bitmap : List Bool
  local_irq_mask : List Bool
  virqs : List virq
deriving DecidableEq, Repr

/-- The part of `struct vcpu` that `virq.h` dereferences. -/
structure vcpu where
  virq_struct : virq_struct
deriving DecidableEq, Repr

/-! ### `virq.h`: inline functions -/

/-- Function `vcpu_has_virq_pending`: `!!vcpu->virq_struct->pending_virq`. -/
def vcpu_has_virq_pending (vcpu : vcpu) : Int :=
  lnotnot vcpu.virq_struct.pending_virq

/-- Function `vcpu_has_hwirq_pending`: `!!vcpu->virq_struct->pending_hirq`. -/
def vcpu_has_hwirq_pending (vcpu : vcpu) : Int :=
  lnotnot vcpu.virq_struct.pending_hirq

/-- Function `vcpu_has_irq`: the `uint32_t` sum `pending_hirq + pending_virq`,
converted to the `int` return type. -/
def vcpu_has_irq (vcpu : vcpu) : Int :=
  toInt32 ((vcpu.virq_struct.pending_hirq + vcpu.virq_struct.pending_virq) % 2 ^ 32)

/-- Function `virq_mask`: calls `virq_enable(virq, 0)` and drops its result.  The body
of `virq_enable` is not part of the header, so it is a parameter: a state
transformer returning a result code. -/
def virq_mask {σ : Type} (virq_enable : Nat → Int → σ → Int × σ) (virq : Nat) (s : σ) :
    Unit × σ :=
  ((), (virq_enable virq 0 s).2)

/-- Function `virq_unmask`: calls `virq_enable(virq, 1)` and drops its result. -/
def virq_unmask {σ : Type} (virq_enable : Nat → Int → σ → Int × σ) (virq : Nat) (s : σ) :
    Unit × σ :=
  ((), (virq_enable virq 1 s).2)

/-- A `virq_struct` whose counters are stored 32-bit values. -/
def vcpu_of_counters (active hirq virq : Nat) : vcpu :=
  ⟨⟨active, hirq, virq, [], [], [], [], []⟩⟩

/-! ### The injection engine

`virq.h` only declares the injection entry points (`send_virq_to_vcpu` and
its siblings) and `vcpu_virq_struct_init`; their bodies lie outside the
header.  The operations below follow the transition table and the
operation descriptions of the specification (§3, §4.2), over the
`virq_struct` of `virq.h`. -/

inductive virq_error where
  | NotFound
  | ResourceExhausted
  | InvalidSlot
  | Empty
deriving DecidableEq, Repr

/-- The record held in slot `i` of the fixed array `virqs`. -/
def slot (s : virq_struct) (i : Nat) : virq := s.virqs.getD i default

/-- Increment of a `uint32_t` counter. -/
def inc32 (c : Nat) : Nat := (c + 1) % 2 ^ 32

/-- Decrement of a `uint32_t` counter. -/
def dec32 (c : Nat) : Nat := (c + (2 ^ 32 - 1)) % 2 ^ 32

/-- Modelled from the spec: `vcpu_virq_struct_init`, declared in `virq.h`
without a body.  §3: the state owns exactly
`CONFIG_VCPU_MAX_ACTIVE_IRQS` record slots, each with a stable slot
identifier, two bitmaps, two (empty) lists and zeroed counters. -/
def vcpu_virq_struct_init (max_irqs max_local : Nat) : virq_struct :=
  { active_count := 0
    pending_hirq := 0
    pending_virq := 0
    pending_list := []
    active_list := []
    irq_bitmap := List.replicate max_irqs false
    local_irq_mask := List.replicate max_local false
    virqs := (List.range max_irqs).map fun i => ⟨0, 0, 0, VIRQ_STATE_INACTIVE, i, 0⟩ }

/-- Number of slots marked in use in `irq_bitmap`. -/
def live_count (s : virq_struct) : Nat := s.irq_bitmap.count true

/-- The slot in use that carries virtual number `v`, if any. -/
def find_live (s : virq_struct) (v : Nat) : Option Nat :=
  (List.range s.virqs.length).find? fun i =>
    s.irq_bitmap.getD i false && decide ((slot s i).v_intno = v)

/-- First zero bit of `irq_bitmap`. -/
def find_free (s : virq_struct) : Option Nat :=
  (List.range s.irq_bitmap.length).find? fun i => !(s.irq_bitmap.getD i false)

/-- Increment the pending counter selected by the hardware-linkage flag. -/
def pending_inc (s : virq_struct) (hw : Nat) : virq_struct :=
  if hw = 0 then { s with pending_virq := inc32 s.pending_virq }
  else { s with pending_hirq := inc32 s.pending_hirq }

/-- Decrement the pending counter selected by the hardware-linkage flag. -/
def pending_dec (s : virq_struct) (hw : Nat) : virq_struct :=
  if hw = 0 then { s with pending_virq := dec32 s.pending_virq }
  else { s with pending_hirq := dec32 s.pending_hirq }

/-- Modelled from the spec: the `inject` operation of §4.2 (the body behind
`send_virq_to_vcpu` / `send_virq_hw`, which `virq.h` declares without a body).
`desc` is the descriptor table: the priority of each registered virtual
number.  The number must be registered; a VCPU already holding
`max_irqs` live records refuses with `ResourceExhausted`; otherwise
Inactive → Pending (allocate the first free slot, append to the pending
list, increment the pending counter of the record's linkage) or
Active → ActiveAndPending (the record re-enters the pending list and stays
in the active list).  Injecting a number whose record is already Pending,
ActiveAndPending or Offline is a no-op. -/
def inject (desc : Nat → Option Nat) (max_irqs : Nat) (s : virq_struct)
    (virtual_number : Nat) (hardware_number : Option Nat) : Except virq_error virq_struct :=
  match desc virtual_number with
  | none => .error .NotFound
  | some pr =>
    if max_irqs ≤ live_count s then .error .ResourceExhausted
    else
      match find_live s virtual_number with
      | some i =>
        if (slot s i).state = VIRQ_STATE_ACTIVE then
          .ok (pending_inc
            { s with
              virqs := s.virqs.set i
                { slot s i with state := state_set (slot s i).state VIRQ_STATE_PENDING }
              pending_list := s.pending_list ++ [i] }
            (slot s i).hw)
        else .ok s
      | none =>
        match find_free s with
        | none => .error .ResourceExhausted
        | some i =>
          .ok (pending_inc
            { s with
              virqs := s.virqs.set i
                { h_intno := hardware_number.getD 0
                  v_intno := virtual_number
                  hw := if hardware_number.isSome then 1 else 0
                  state := state_set VIRQ_STATE_INACTIVE VIRQ_STATE_PENDING
                  id := i
                  pr := pr }
              irq_bitmap := s.irq_bitmap.set i true
              pending_list := s.pending_list ++ [i] }
            (if hardware_number.isSome then 1 else 0))

/-- Among the candidate slots (in list order) the first one of least `pr`:
lower value is higher precedence, ties go to the earlier entry. -/
def select_min (s : virq_struct) : List Nat → Option Nat
  | [] => none
  | i :: rest =>
    match select_min s rest with
    | none => some i
    | some j => if (slot s i).pr ≤ (slot s j).pr then some i else some j

/-- The records of the pending list that the table lets `promote` move:
those in state Pending (Offline records are excluded from selection, and a
record still Active waits for its completion). -/
def eligible (s : virq_struct) : List Nat :=
  s.pending_list.filter fun i => decide ((slot s i).state = VIRQ_STATE_PENDING)

/-- Modelled from the spec: `promote_next_pending` of §4.2, for which
`virq.h` has no body.  Selects the highest-priority eligible record of the
pending list (first-in-first-out among equal priorities) and moves it
Pending → Active: out of the pending list, to the tail of the active list,
pending counter decremented, `active_count` incremented.  Returns the new
state with the virtual and hardware numbers, or `Empty`. -/
def promote_next_pending (s : virq_struct) : Except virq_error (virq_struct × Nat × Nat) :=
  match select_min s (eligible s) with
  | none => .error .Empty
  | some i =>
    .ok (pending_dec
      { s with
        virqs := s.virqs.set i { slot s i with state := VIRQ_STATE_ACTIVE }
        pending_list := s.pending_list.erase i
        active_list := s.active_list ++ [i]
        active_count := inc32 s.active_count }
      (slot s i).hw, (slot s i).v_intno, (slot s i).h_intno)

/-- Modelled from the spec: `complete` of §4.2, for which `virq.h` has no
body.  Fails with `InvalidSlot` unless the slot is currently Active or
ActiveAndPending; otherwise clears the active standing (Active → Inactive,
ActiveAndPending → Pending), removes the record from the active list,
decrements `active_count`, and frees the slot when the record became
Inactive. -/
def complete (s : virq_struct) (slot_id : Nat) : Except virq_error virq_struct :=
  if slot_id < s.virqs.length ∧
      ((slot s slot_id).state = VIRQ_STATE_ACTIVE ∨
        (slot s slot_id).state = VIRQ_STATE_ACTIVE_AND_PENDING) then
    .ok
      { s with
        virqs := s.virqs.set slot_id
          { slot s slot_id with state := state_clear (slot s slot_id).state VIRQ_STATE_ACTIVE }
        active_list := s.active_list.erase slot_id
        active_count := dec32 s.active_count
        irq_bitmap :=
          if state_clear (slot s slot_id).state VIRQ_STATE_ACTIVE = VIRQ_STATE_INACTIVE then
            s.irq_bitmap.set slot_id false
          else s.irq_bitmap }
  else .error .InvalidSlot

/-- The three lifecycle operations on one VCPU. -/
inductive virq_op where
  | inject (virtual_number : Nat) (hardware_number : Option Nat)
  | promote
  | complete (slot_id : Nat)
deriving DecidableEq, Repr

/-- One operation; an operation that fails leaves the state as it was. -/
def apply_op (desc : Nat → Option Nat) (max_irqs : Nat) (s : virq_struct) :
    virq_op → virq_struct
  | .inject v h =>
    match inject desc max_irqs s v h with
    | .ok s1 => s1
    | .error _ => s
  | .promote =>
    match promote_next_pending s with
    | .ok r => r.1
    | .error _ => s
  | .complete i =>
    match complete s i with
    | .ok s1 => s1
    | .error _ => s

/-- A descriptor table registering the numbers below 2000 with priority
`v % 3`. -/
def ops_ex_desc (v : Nat) : Option Nat := if v < 2000 then some (v % 3) else none

/-- A run on a VCPU of three slots that injects, promotes, re-injects an
active interrupt, completes it and meets the capacity limit. -/
def ops_ex : List virq_op :=
  [.inject 1030 none, .inject 27 (some 40), .promote, .inject 27 (some 40), .promote,
    .complete 1, .inject 7 none, .inject 8 none, .promote, .complete 0]

/-- A sequence of operations on a freshly initialised `virq_struct`. -/
def run_ops (desc : Nat → Option Nat) (max_irqs max_local : Nat) (ops : List virq_op) :
    virq_struct :=
  ops.foldl (apply_op desc max_irqs) (vcpu_virq_struct_init max_irqs max_local)


/-- Consistency of a `virq_struct` of capacity `n`: each list is duplicate
free and holds exactly the slots whose state carries the matching standing,
free slots are Inactive, and the counters count the lists (the pending
counters split by the hardware-linkage flag). -/
structure virq_inv (n : Nat) (s : virq_struct) : Prop where
  cap : n < 2 ^ 32
  len_virqs : s.virqs.length = n
  len_bitmap : s.irq_bitmap.length = n
  nodup_pending : s.pending_list.Nodup
  nodup_active : s.active_list.Nodup
  mem_pending : ∀ i, i ∈ s.pending_list ↔
    i < n ∧ ((slot s i).state = VIRQ_STATE_PENDING ∨
      (slot s i).state = VIRQ_STATE_ACTIVE_AND_PENDING)
  mem_active : ∀ i, i ∈ s.active_list ↔
    i < n ∧ ((slot s i).state = VIRQ_STATE_ACTIVE ∨
      (slot s i).state = VIRQ_STATE_ACTIVE_AND_PENDING)
  free_inactive : ∀ i, i < n → s.irq_bitmap.getD i false = false →
    (slot s i).state = VIRQ_STATE_INACTIVE
  count_active : s.active_count = s.active_list.length
  count_hirq : s.pending_hirq = s.pending_list.countP fun i => decide ((slot s i).hw ≠ 0)
  count_virq : s.pending_virq = s.pending_list.countP fun i => decide ((slot s i).hw = 0)

/-! ### `os_xnu.c`: machine integers and constants -/

/-- Wrap an integer into the range of a 32-bit C `int` (conversion of a wider
value to `int`, and `int` addition on a two's-complement machine). -/
def wrap32 (x : Int) : Int := (x + 2 ^ 31) % 2 ^ 32 - 2 ^ 31

/-- Addition of two `uint64_t` values. -/
def add64 (a b : Nat) : Nat := (a + b) % 2 ^ 64

/-- Conversion of a signed value (`off_t`) to `uint64_t`. -/
def toU64 (x : Int) : Nat := (x % 2 ^ 64).toNat

/-- The code `ENOENT` of `<errno.h>`. -/
def ENOENT : Int := 2

/-- The code `EIO` of `<errno.h>`. -/
def EIO : Int := 5

def XNU_KERNEL_BASE : Nat := 0x40000000

/-- The macro `VA2PA(addr)`: `XNU_KERNEL_BASE + ((addr) & 0x3fffffff)`. -/
def VA2PA (addr : Nat) : Nat := add64 XNU_KERNEL_BASE (addr &&& 0x3fffffff)

/-- The constant `~0xffffull`. -/
def MASK64K : Nat := 0xffffffffffff0000

/-- The rounding `(x + 0xffffull) & ~0xffffull` of `xnu_parse_address_space`. -/
def align64k (x : Nat) : Nat := add64 x 0xffff &&& MASK64K

/-! ### `os_xnu.c`: data -/

/-- The fields of `struct segment_cmd64` that the loader reads. -/
structure segment_cmd64 where
  vm_addr : Nat
  vm_size : Nat
  file_off : Nat
  file_size : Nat
deriving DecidableEq, Repr

/-- The record `struct xnu_os_data`; `root` is the linked list of segment commands, head
first (`meta_buf` only keeps the commands alive). -/
structure xnu_os_data where
  tc_fd : Int
  entry_point : Nat
  tc_load_base : Nat
  tc_load_size : Nat
  kernel_load_base : Nat
  load_end : Nat
  ramdisk_load_base : Nat
  ramdisk_size : Nat
  dtb_load_base : Nat
  dtb_size : Nat
  bootarg_load_base : Nat
  root : List segment_cmd64
deriving DecidableEq, Repr

/-- The fields of `struct vm` that `os_xnu.c` uses. -/
structure vm where
  kfd : Int
  rfd : Int
  dfd : Int
  mem_size : Nat
  mem_start : Nat
  entry : Nat
  setup_data : Nat
  map_start : Nat
  map_size : Nat
deriving DecidableEq, Repr

/-- What `fstat` reports: whether the mode is that of a regular file
(`S_ISREG`), and `st_size`. -/
structure stat where
  is_reg : Bool
  st_size : Int
deriving DecidableEq, Repr

/-- The memory-block macros of the build (`MEM_BLOCK_ALIGN`,
`MEM_BLOCK_BALIGN`, `MEM_BLOCK_SIZE`), which `os_xnu.c` takes from a header. -/
structure mem_block where
  align : Nat → Nat
  balign : Nat → Nat
  size : Nat

/-! ### `os_xnu.c`: address-space layout -/

/-- One iteration of the loop of `xnu_get_macho_highlow`. -/
def highlow_step (lh : Nat × Nat) (cmd : segment_cmd64) : Nat × Nat :=
  (if cmd.vm_addr < lh.1 then cmd.vm_addr else lh.1,
   if add64 cmd.vm_addr cmd.vm_size > lh.2 then add64 cmd.vm_addr cmd.vm_size else lh.2)

/-- Function `xnu_get_macho_highlow`: starting from `low = ~0`, `high = 0`, the least
`vm_addr` and the greatest `vm_addr + vm_size` over the segment list. -/
def xnu_get_macho_highlow (od : xnu_os_data) : Nat × Nat :=
  od.root.foldl highlow_step (2 ^ 64 - 1, 0)

/-- The test `(fd <= 0) || (fstat(fd, &stbuf) != 0) || (!S_ISREG(stbuf.st_mode))`
negated: the `stat` of an open regular file.  `fstat` gives the result of
the system call per descriptor, `none` for a failure. -/
def regular_file (fstat : Int → Option stat) (fd : Int) : Option stat :=
  if fd ≤ 0 then none
  else
    match fstat fd with
    | none => none
    | some st => if st.is_reg then some st else none

/-- Function `get_file_size`: the size of a regular file, 0 otherwise. -/
def get_file_size (fstat : Int → Option stat) (fd : Int) : Nat :=
  match fstat fd with
  | none => 0
  | some st => if st.is_reg then toU64 st.st_size else 0

/-- Function `xnu_parse_address_space`.  `bootargs_size` is
`sizeof(struct xnu_arm64_boot_args)`, a type declared in a header. -/
def xnu_parse_address_space (fstat : Int → Option stat) (bootargs_size : Nat)
    (mb : mem_block) (vm : vm) (od : xnu_os_data) : Minos.vm × xnu_os_data :=
  let hl := xnu_get_macho_highlow od
  let od := { od with kernel_load_base := hl.1, ramdisk_load_base := hl.2 }
  let od :=
    match regular_file fstat vm.rfd with
    | none => { od with dtb_load_base := od.ramdisk_load_base, ramdisk_size := 0 }
    | some st =>
      { od with
        ramdisk_size := toU64 st.st_size
        dtb_load_base := align64k (add64 od.ramdisk_load_base (toU64 st.st_size)) }
  let od :=
    match regular_file fstat vm.dfd with
    | none => { od with bootarg_load_base := od.dtb_load_base, dtb_size := 0 }
    | some st =>
      { od with
        dtb_size := toU64 st.st_size
        bootarg_load_base := align64k (add64 od.dtb_load_base (toU64 st.st_size)) }
  let od := { od with load_end := align64k (add64 od.bootarg_load_base bootargs_size) }
  let map_start := (mb.align (VA2PA od.kernel_load_base) + (2 ^ 64 - mb.size % 2 ^ 64)) % 2 ^ 64
  let vm :=
    { vm with
      mem_start := XNU_KERNEL_BASE
      entry := VA2PA od.entry_point
      setup_data := VA2PA od.bootarg_load_base
      map_start := map_start
      map_size := (VA2PA (mb.balign od.load_end) + (2 ^ 64 - map_start)) % 2 ^ 64 }
  (vm, { od with tc_load_base := vm.map_start, tc_load_size := get_file_size fstat od.tc_fd })

/-- The `xnu_os_data` that `xnu_parse_address_space` leaves behind. -/
def parsed_od (fstat : Int → Option stat) (bootargs_size : Nat) (mb : mem_block)
    (vm : vm) (od : xnu_os_data) : xnu_os_data :=
  (xnu_parse_address_space fstat bootargs_size mb vm od).2

/-- The additions that `xnu_parse_address_space` carries out stay below
`2^64`: each segment's `vm_addr + vm_size`, and, on the layout it computes,
the sums that place the device tree, the boot arguments and the load end
(each with its rounding addend `0xffff`; an absent image has size 0 and adds
nothing). -/
def layout_no_wrap (fstat : Int → Option stat) (bootargs_size : Nat) (mb : mem_block)
    (vm : vm) (od : xnu_os_data) : Prop :=
  (∀ c ∈ od.root, c.vm_addr + c.vm_size < 2 ^ 64) ∧
  ((regular_file fstat vm.rfd).isSome →
    (parsed_od fstat bootargs_size mb vm od).ramdisk_load_base +
      (parsed_od fstat bootargs_size mb vm od).ramdisk_size + 0xffff < 2 ^ 64) ∧
  ((regular_file fstat vm.dfd).isSome →
    (parsed_od fstat bootargs_size mb vm od).dtb_load_base +
      (parsed_od fstat bootargs_size mb vm od).dtb_size + 0xffff < 2 ^ 64) ∧
  (parsed_od fstat bootargs_size mb vm od).bootarg_load_base +
    bootargs_size + 0xffff < 2 ^ 64

/-- A host with a ramdisk of 100000 bytes on descriptor 4 and a device tree
of 70000 bytes on descriptor 5. -/
def layout_ex_fstat (fd : Int) : Option stat :=
  if fd = 4 then some ⟨true, 100000⟩ else if fd = 5 then some ⟨true, 70000⟩ else none

def layout_ex_vm : vm :=
  { kfd := 3, rfd := 4, dfd := 5, mem_size := 0, mem_start := 0, entry := 0,
    setup_data := 0, map_start := 0, map_size := 0 }

def layout_ex_od : xnu_os_data :=
  { tc_fd := 6, entry_point := 0xfffffff007004000, tc_load_base := 0, tc_load_size := 0,
    kernel_load_base := 0, load_end := 0, ramdisk_load_base := 0,
    ramdisk_size := 0, dtb_load_base := 0, dtb_size := 0, bootarg_load_base := 0,
    root := [⟨0xfffffff007004000, 0x5000, 0, 0x5000⟩, ⟨0xfffffff007010000, 0x8123, 0x5000, 0x8000⟩] }

instance (fstat : Int → Option stat) (bootargs_size : Nat) (mb : mem_block) (vm : vm)
    (od : xnu_os_data) : Decidable (layout_no_wrap fstat bootargs_size mb vm od) :=
  inferInstanceAs (Decidable (
    (∀ c ∈ od.root, c.vm_addr + c.vm_size < 2 ^ 64) ∧
    ((regular_file fstat vm.rfd).isSome →
      (parsed_od fstat bootargs_size mb vm od).ramdisk_load_base +
        (parsed_od fstat bootargs_size mb vm od).ramdisk_size + 0xffff < 2 ^ 64) ∧
    ((regular_file fstat vm.dfd).isSome →
      (parsed_od fstat bootargs_size mb vm od).dtb_load_base +
        (parsed_od fstat bootargs_size mb vm od).dtb_size + 0xffff < 2 ^ 64) ∧
    (parsed_od fstat bootargs_size mb vm od).bootarg_load_base +
      bootargs_size + 0xffff < 2 ^ 64))

def layout_ex_mb : mem_block := ⟨fun x => x / 0x200000 * 0x200000,
  fun x => (x + 0x1fffff) / 0x200000 * 0x200000, 0x200000⟩

/-! ### `os_xnu.c`: image loading -/

/-- What the two system calls of `xnu_load_raw_data` return: `lseek` an
`off_t` (-1 for a failure), `read` an `ssize_t`. -/
structure io_outcome where
  lseek_ret : Int
  read_ret : Int
deriving DecidableEq, Repr

/-- Function `xnu_load_raw_data`, as far as its result goes: 0 for an empty range,
`-EIO` when `lseek` fails, otherwise `read`'s result stored in `int ret` and
returned when `ret <= 0`, else 0. -/
def xnu_load_raw_data (io : io_outcome) (file_size : Nat) : Int :=
  if file_size = 0 then 0
  else if io.lseek_ret = -1 then - EIO
  else if wrap32 io.read_ret ≤ 0 then wrap32 io.read_ret
  else 0

/-- The `while (root)` loop of `xnu_load_kernel_image`: segment number `k`
is loaded with the outcome `io k`; the first non-zero result is returned. -/
def load_segments (io : Nat → io_outcome) : List segment_cmd64 → Nat → Int
  | [], _ => 0
  | cmd :: rest, k =>
    if xnu_load_raw_data (io k) cmd.file_size ≠ 0 then
      xnu_load_raw_data (io k) cmd.file_size
    else load_segments io rest (k + 1)

/-- The outcomes of the system calls of one run of `xnu_load_image`. -/
structure load_env where
  kernel_io : Nat → io_outcome
  ramdisk_io : io_outcome
  dtb_io : io_outcome
  tc_io : io_outcome

/-- Function `xnu_load_kernel_image`. -/
def xnu_load_kernel_image (env : load_env) (vm : vm) (od : xnu_os_data) : Int :=
  if vm.kfd ≤ 0 then -ENOENT else load_segments env.kernel_io od.root 0

/-- Function `xnu_load_ramdisk`. -/
def xnu_load_ramdisk (env : load_env) (vm : vm) (od : xnu_os_data) : Int :=
  if vm.rfd ≤ 0 then -ENOENT else xnu_load_raw_data env.ramdisk_io od.ramdisk_size

/-- Function `xnu_load_dtb`. -/
def xnu_load_dtb (env : load_env) (vm : vm) (od : xnu_os_data) : Int :=
  if vm.dfd ≤ 0 then -ENOENT else xnu_load_raw_data env.dtb_io od.dtb_size

/-- Function `xnu_load_tc`. -/
def xnu_load_tc (env : load_env) (_vm : vm) (od : xnu_os_data) : Int :=
  xnu_load_raw_data env.tc_io od.tc_load_size

/-- Function `xnu_load_image`: `ret = 0`, then four times `ret += stage`, in `int`. -/
def xnu_load_image (env : load_env) (vm : vm) (od : xnu_os_data) : Int :=
  wrap32 (wrap32 (wrap32 (wrap32 (0 + xnu_load_kernel_image env vm od) +
    xnu_load_ramdisk env vm od) + xnu_load_dtb env vm od) + xnu_load_tc env vm od)

/-- The results a `read` of the run can deliver: -1 for a failure or a byte
count, which is below `2^31` (a Linux `read` transfers at most `0x7ffff000`
bytes however many are asked for). -/
def reads_fit_int (env : load_env) : Prop :=
  (∀ k, -1 ≤ (env.kernel_io k).read_ret ∧ (env.kernel_io k).read_ret < 2 ^ 31) ∧
  (-1 ≤ env.ramdisk_io.read_ret ∧ env.ramdisk_io.read_ret < 2 ^ 31) ∧
  (-1 ≤ env.dtb_io.read_ret ∧ env.dtb_io.read_ret < 2 ^ 31) ∧
  (-1 ≤ env.tc_io.read_ret ∧ env.tc_io.read_ret < 2 ^ 31)

/-- A guest with a kernel, a ramdisk and a device tree opened. -/
def load_ex_vm : vm :=
  { kfd := 3, rfd := 4, dfd := 5, mem_size := 0, mem_start := 0, entry := 0,
    setup_data := 0, map_start := 0, map_size := 0 }

def load_ex_od : xnu_os_data :=
  { tc_fd := 6, entry_point := 0, tc_load_base := 0, tc_load_size := 0,
    kernel_load_base := 0, load_end := 0, ramdisk_load_base := 0,
    ramdisk_size := 0x2000, dtb_load_base := 0, dtb_size := 0x1000, bootarg_load_base := 0,
    root := [⟨0, 0x5000, 0, 0x4000⟩, ⟨0x5000, 0x1000, 0x4000, 0⟩] }

/-- A run in which every call succeeds with a short count. -/
def load_ok_env : load_env :=
  { kernel_io := fun _ => ⟨0, 4096⟩
    ramdisk_io := ⟨0, 4096⟩
    dtb_io := ⟨0, 4096⟩
    tc_io := ⟨0, 4096⟩ }

/-! ### `os_xnu.c`: boot arguments and device-tree fix-up (`xnu_setup_env`) -/

/-- Guest memory: the byte at each offset from `vm->mmap`. -/
abbrev Mem := Nat → Nat

/-- A C string literal as its characters; the terminating NUL is the 0 that
`headD` and `getD` deliver past the end. -/
def cstr (s : String) : List Nat := s.toList.map Char.toNat

/-- The characters of a C string: those before its first NUL. -/
def c_chars (s : List Nat) : List Nat := s.takeWhile fun c => decide (c ≠ 0)

/-- The length `strlen(s)` of a C string. -/
def strlen (s : List Nat) : Nat := (c_chars s).length

/-- The call `strncmp(mem + p, s, n)` against a string `s`: compare at most `n`
characters, stopping at the first difference or behind a NUL. -/
def strncmp (mem : Mem) : Nat → List Nat → Nat → Int
  | _, _, 0 => 0
  | p, s, n + 1 =>
    if mem p ≠ s.headD 0 then (mem p : Int) - (s.headD 0 : Int)
    else if mem p = 0 then 0
    else strncmp mem (p + 1) s.tail n

/-- The call `strncpy(mem + dst, src, n)`: `n` bytes are written, the
characters of `src` followed by NUL padding. -/
def strncpy (mem : Mem) (dst : Nat) (src : List Nat) (n : Nat) : Mem :=
  fun a => if dst ≤ a ∧ a < dst + n then (c_chars src).getD (a - dst) 0 else mem a

/-- The call `memset(mem + dst, c, n)`. -/
def memset (mem : Mem) (dst c n : Nat) : Mem :=
  fun a => if dst ≤ a ∧ a < dst + n then c else mem a

/-- Store of an unsigned value in a field of `width` bytes at offset `a`
(little endian; a narrower field keeps the low bytes). -/
def store_le (mem : Mem) (a width v : Nat) : Mem :=
  fun x => if a ≤ x ∧ x < a + width then v / 256 ^ (x - a) % 256 else mem x

/-- Store of a `uint64_t` at offset `a` (little endian). -/
def store64 (mem : Mem) (a v : Nat) : Mem :=
  fun x => if a ≤ x ∧ x < a + 8 then v / 256 ^ (x - a) % 256 else mem x

/-- Load of a `uint64_t` from offset `a` (little endian). -/
def load64 (mem : Mem) (a : Nat) : Nat :=
  mem a + mem (a + 1) * 256 + mem (a + 2) * 256 ^ 2 + mem (a + 3) * 256 ^ 3 +
    mem (a + 4) * 256 ^ 4 + mem (a + 5) * 256 ^ 5 + mem (a + 6) * 256 ^ 6 +
    mem (a + 7) * 256 ^ 7

/-- The macro `LOAD_OFFSET(addr, base)`: `(VA2PA(addr) - base)`, in
`uint64_t`. -/
def LOAD_OFFSET (addr base : Nat) : Nat := (VA2PA addr + (2 ^ 64 - base % 2 ^ 64)) % 2 ^ 64

/-- Place of a member of `struct xnu_arm64_boot_args`: byte offset and
width. -/
structure arg_field where
  off : Nat
  width : Nat
deriving DecidableEq, Repr

/-- What a header fixes about the boot arguments: `sizeof(struct
xnu_arm64_boot_args)`, the place of each member that `xnu_setup_env` stores,
the offset of the `cmdline` array, and the two constants
`XNU_ARM64_KBOOT_ARGS_REVISION2` and `XNU_ARM64_KBOOT_ARGS_VERSION`. -/
structure boot_args_layout where
  size : Nat
  revision : arg_field
  version : arg_field
  virt_base : arg_field
  phys_base : arg_field
  mem_size : arg_field
  top_of_kdata : arg_field
  dtb : arg_field
  dtb_length : arg_field
  mem_size_actual : arg_field
  boot_flags : arg_field
  cmdline : Nat
  KBOOT_ARGS_REVISION2 : Nat
  KBOOT_ARGS_VERSION : Nat
deriving DecidableEq, Repr

/-- Offset of the boot arguments in guest memory:
`LOAD_OFFSET(od->bootarg_load_base, vm->map_start)`. -/
def arg_off (vm : vm) (od : xnu_os_data) : Nat := LOAD_OFFSET od.bootarg_load_base vm.map_start

/-- Offset of the device tree in guest memory:
`LOAD_OFFSET(od->dtb_load_base, vm->map_start)`. -/
def dtb_off (vm : vm) (od : xnu_os_data) : Nat := LOAD_OFFSET od.dtb_load_base vm.map_start

/-- The first part of `xnu_setup_env`: the boot arguments are cleared with
`memset`, their members stored one by one, and the command line copied with
`strncpy(arg->cmdline, cmdline, strlen(cmdline) + 1)`. -/
def boot_args_block (L : boot_args_layout) (vm : vm) (od : xnu_os_data)
    (cmdline : List Nat) (mem : Mem) : Mem :=
  let arg := arg_off vm od
  let m := memset mem arg 0 L.size
  let m := store_le m (arg + L.revision.off) L.revision.width L.KBOOT_ARGS_REVISION2
  let m := store_le m (arg + L.version.off) L.version.width L.KBOOT_ARGS_VERSION
  let m := store_le m (arg + L.virt_base.off) L.virt_base.width
    (od.kernel_load_base &&& 0xffffffffc0000000)
  let m := store_le m (arg + L.phys_base.off) L.phys_base.width XNU_KERNEL_BASE
  let m := store_le m (arg + L.mem_size.off) L.mem_size.width vm.mem_size
  let m := store_le m (arg + L.top_of_kdata.off) L.top_of_kdata.width (VA2PA od.load_end)
  let m := store_le m (arg + L.dtb.off) L.dtb.width od.dtb_load_base
  let m := store_le m (arg + L.dtb_length.off) L.dtb_length.width od.dtb_size
  let m := store_le m (arg + L.mem_size_actual.off) L.mem_size_actual.width 0
  let m := store_le m (arg + L.boot_flags.off) L.boot_flags.width 0
  strncpy m (arg + L.cmdline) cmdline (strlen cmdline + 1)

/-- The scan `for (i = start; i < start + k; i++) if (p i) break;`: the first
index at which `p` holds. -/
def scan (p : Nat → Bool) : Nat → Nat → Option Nat
  | 0, _ => none
  | k + 1, i => if p i then some i else scan p k (i + 1)

/-- The search loop of `xnu_setup_env`: the first `i < dtb_size` with
`strncmp(dtb + i, name, XNU_DT_PROP_NAME_LENGTH) == 0`, where `dtb` lies at
offset `base`. -/
def find_prop (mem : Mem) (base : Nat) (name : List Nat) (name_len dtb_size : Nat) :
    Option Nat :=
  scan (fun i => decide (strncmp mem (base + i) name name_len = 0)) dtb_size 0

/-- The rewrite of the property at offset `p`:
`strncpy(dt_prop->name, name, XNU_DT_PROP_NAME_LENGTH)`, then `value[0] = v0`
and `value[1] = v1`, where `value` lies `value_off` bytes into the
property. -/
def dt_rewrite (mem : Mem) (p : Nat) (name : List Nat) (name_len value_off v0 v1 : Nat) :
    Mem :=
  store64 (store64 (strncpy mem p name name_len) (p + value_off) v0) (p + value_off + 8) v1

/-- The memory after the first rewrite of `xnu_setup_env` (property at offset
`p` renamed "RAMDisk", with the ramdisk's physical base and size). -/
def ramdisk_rewrite (name_len value_off : Nat) (od : xnu_os_data) (mem : Mem) (p : Nat) : Mem :=
  dt_rewrite mem p (cstr "RAMDisk") name_len value_off
    (VA2PA od.ramdisk_load_base) od.ramdisk_size

/-- The memory after the second rewrite of `xnu_setup_env` (property at
offset `p` renamed "TrustCache", with the trust cache's physical base and
size). -/
def tc_rewrite (name_len value_off : Nat) (od : xnu_os_data) (mem : Mem) (p : Nat) : Mem :=
  dt_rewrite mem p (cstr "TrustCache") name_len value_off
    (VA2PA od.tc_load_base) od.tc_load_size

/-- Function `xnu_setup_env`: the result code and the guest memory left
behind.  `L` is the layout of the boot arguments, `name_len` is
`XNU_DT_PROP_NAME_LENGTH` and `value_off` the offset of `value` in
`struct xnu_dt_node_prop`, all three fixed by a header. -/
def xnu_setup_env (L : boot_args_layout) (name_len value_off : Nat) (vm : vm)
    (od : xnu_os_data) (cmdline : List Nat) (mem : Mem) : Int × Mem :=
  match find_prop (boot_args_block L vm od cmdline mem) (dtb_off vm od)
      (cstr "MemoryMapReserved-0") name_len od.dtb_size with
  | none => (-ENOENT, boot_args_block L vm od cmdline mem)
  | some i =>
    match find_prop
        (ramdisk_rewrite name_len value_off od (boot_args_block L vm od cmdline mem)
          (dtb_off vm od + i))
        (dtb_off vm od) (cstr "MemoryMapReserved-1") name_len od.dtb_size with
    | none =>
      (-ENOENT, ramdisk_rewrite name_len value_off od (boot_args_block L vm od cmdline mem)
        (dtb_off vm od + i))
    | some j =>
      (0, tc_rewrite name_len value_off od
        (ramdisk_rewrite name_len value_off od (boot_args_block L vm od cmdline mem)
          (dtb_off vm od + i))
        (dtb_off vm od + j))

/-- The name `name`, with its terminating NUL, stands at offset `p`. -/
def occurs_at (mem : Mem) (name : List Nat) (p : Nat) : Prop :=
  ∀ k, k < name.length + 1 → mem (p + k) = name.getD k 0

instance (mem : Mem) (name : List Nat) (p : Nat) : Decidable (occurs_at mem name p) :=
  inferInstanceAs (Decidable (∀ k, k < name.length + 1 → mem (p + k) = name.getD k 0))

/-- The device tree (the `dtb_size` bytes from offset `base`) contains no
occurrence of the name. -/
def no_occurrence (mem : Mem) (base : Nat) (name : List Nat) (dtb_size : Nat) : Prop :=
  ∀ i, i < dtb_size → ¬ occurs_at mem name (base + i)

/-- The first occurrence of the name in the device tree starts at its byte
`i`. -/
def first_occurrence (mem : Mem) (base : Nat) (name : List Nat) (dtb_size i : Nat) : Prop :=
  i < dtb_size ∧ occurs_at mem name (base + i) ∧ ∀ k, k < i → ¬ occurs_at mem name (base + k)

instance (mem : Mem) (base : Nat) (name : List Nat) (dtb_size : Nat) :
    Decidable (no_occurrence mem base name dtb_size) :=
  inferInstanceAs (Decidable (∀ i, i < dtb_size → ¬ occurs_at mem name (base + i)))

instance (mem : Mem) (base : Nat) (name : List Nat) (dtb_size i : Nat) :
    Decidable (first_occurrence mem base name dtb_size i) :=
  inferInstanceAs (Decidable (i < dtb_size ∧ occurs_at mem name (base + i) ∧
    ∀ k, k < i → ¬ occurs_at mem name (base + k)))

/-- The boot-argument block leaves the device tree as it was loaded: it
changes none of the `dtb_size` bytes nor of the 19 bytes behind them, which a
comparison that starts inside the device tree may read. -/
def dtb_untouched (L : boot_args_layout) (vm : vm) (od : xnu_os_data) (cmdline : List Nat)
    (mem : Mem) : Prop :=
  ∀ k, k < od.dtb_size + 19 →
    boot_args_block L vm od cmdline mem (dtb_off vm od + k) = mem (dtb_off vm od + k)

instance (L : boot_args_layout) (vm : vm) (od : xnu_os_data) (cmdline : List Nat)
    (mem : Mem) : Decidable (dtb_untouched L vm od cmdline mem) :=
  inferInstanceAs (Decidable (∀ k, k < od.dtb_size + 19 →
    boot_args_block L vm od cmdline mem (dtb_off vm od + k) = mem (dtb_off vm od + k)))

/-- The property at byte `j` of the device tree shares no byte with what the
RAMDisk fix-up of the property at byte `i` writes (its name field and its two
values): it ends before that property or starts behind its values. -/
def clear_of_fixup (value_off i j : Nat) : Prop :=
  j + 20 ≤ i ∨ i + value_off + 16 ≤ j

instance (value_off i j : Nat) : Decidable (clear_of_fixup value_off i j) :=
  inferInstanceAs (Decidable (j + 20 ≤ i ∨ i + value_off + 16 ≤ j))

/-- Memory holding the given bytes from offset `base` on and zero elsewhere. -/
def mem_of_bytes (base : Nat) (bytes : List Nat) : Mem :=
  fun a => if base ≤ a then bytes.getD (a - base) 0 else 0

/-- The bytes `mem[base .. base + n)`. -/
def mem_bytes (mem : Mem) (base n : Nat) : List Nat := (List.range n).map fun k => mem (base + k)

/-- A layout of the boot arguments: two 16-bit members, four 64-bit members,
the device-tree pointer and length, a command line of 256 bytes and two
64-bit members behind it, 384 bytes in all. -/
def setup_ex_layout : boot_args_layout :=
  { size := 384
    revision := ⟨0, 2⟩
    version := ⟨2, 2⟩
    virt_base := ⟨8, 8⟩
    phys_base := ⟨16, 8⟩
    mem_size := ⟨24, 8⟩
    top_of_kdata := ⟨32, 8⟩
    dtb := ⟨96, 8⟩
    dtb_length := ⟨104, 4⟩
    mem_size_actual := ⟨376, 8⟩
    boot_flags := ⟨368, 8⟩
    cmdline := 108
    KBOOT_ARGS_REVISION2 := 2
    KBOOT_ARGS_VERSION := 2 }

/-- A guest whose mapping starts at the physical base. -/
def setup_ex_vm : vm :=
  { kfd := 3, rfd := 4, dfd := 5, mem_size := 0x40000000, mem_start := 0x40000000,
    entry := 0x40004000, setup_data := 0x40020000, map_start := 0x40000000,
    map_size := 0x200000 }

/-- A layout with the device tree (of `dtb_size` bytes) at guest offset
`0x10000` and the boot arguments at guest offset `0x20000`. -/
def setup_ex_od (dtb_size : Nat) : xnu_os_data :=
  { tc_fd := 6, entry_point := 0xfffffff000004000, tc_load_base := 0x40000000,
    tc_load_size := 0x789, kernel_load_base := 0xfffffff000004000,
    load_end := 0xfffffff000030000, ramdisk_load_base := 0xfffffff00000c000,
    ramdisk_size := 0x3456, dtb_load_base := 0xfffffff000010000, dtb_size := dtb_size,
    bootarg_load_base := 0xfffffff000020000, root := [] }

/-- A command line. -/
def setup_ex_cmdline : List Nat := cstr "debug=0x8 kextlog=0xfff"

/-- A device tree of 64 bytes in which the name "MemoryMapReserved-1" starts
right behind the terminated name "MemoryMapReserved-0". -/
def dtb_adjacent : Mem :=
  mem_of_bytes 0x10000
    (cstr "MemoryMapReserved-0" ++ [0] ++ cstr "MemoryMapReserved-1" ++ [0])

/-- A device tree of 16 bytes that names no property. -/
def dtb_blank : Mem := mem_of_bytes 0x10000 []

/-- A device tree of 96 bytes with the two properties 64 bytes apart. -/
def dtb_apart : Mem :=
  mem_of_bytes 0x10000 (cstr "MemoryMapReserved-0" ++ List.replicate 45 0 ++
    cstr "MemoryMapReserved-1" ++ [0])

/-- A device tree of 96 bytes that holds only "MemoryMapReserved-0". -/
def dtb_single : Mem :=
  mem_of_bytes 0x10000 (cstr "MemoryMapReserved-0" ++ [0])

/-- A device tree of 96 bytes that holds "MemoryMapReserved-0" at byte 0 and,
from byte 52 on, only the tail "pReserved-1" of the second name. -/
def dtb_tail : Mem :=
  mem_of_bytes 0x10000 (cstr "MemoryMapReserved-0" ++ List.replicate 33 0 ++
    cstr "pReserved-1" ++ [0])

/-- The layout of `setup_ex_od` with a ramdisk size whose eight bytes spell
"MemoryMa". -/
def setup_ex_od_spelling (dtb_size : Nat) : xnu_os_data :=
  { setup_ex_od dtb_size with ramdisk_size := 0x614d79726f6d654d }

/-! ## Part II — lemmas and theorems -/

/-! ### Queries (`vcpu_has_*`) -/

theorem toInt32_eq_zero_iff (n : Nat) (h : n < 2 ^ 32) : toInt32 n = 0 ↔ n = 0 := by
  unfold toInt32
  rw [Nat.mod_eq_of_lt h]
  split <;> omega

theorem lnotnot_ne_zero_iff (x : Nat) : lnotnot x ≠ 0 ↔ x ≠ 0 := by
  unfold lnotnot
  split <;> simp_all

/-- C1 (as amended): whenever the two pending counters do not add up to
`2^32` or more, `vcpu_has_irq` is non-zero exactly when one of
`vcpu_has_virq_pending`, `vcpu_has_hwirq_pending` is non-zero. -/
theorem vcpu_has_irq_iff_of_no_wrap (v : vcpu)
    (hsum : v.virq_struct.pending_hirq + v.virq_struct.pending_virq < 2 ^ 32) :
    vcpu_has_irq v ≠ 0 ↔ (vcpu_has_virq_pending v ≠ 0 ∨ vcpu_has_hwirq_pending v ≠ 0) := by
  unfold vcpu_has_irq vcpu_has_virq_pending vcpu_has_hwirq_pending
  rw [lnotnot_ne_zero_iff, lnotnot_ne_zero_iff, Nat.mod_eq_of_lt hsum, Ne,
    toInt32_eq_zero_iff _ hsum]
  omega

theorem vcpu_has_irq_iff_of_no_wrap_witness :
    vcpu_has_irq (vcpu_of_counters 0 3 0) ≠ 0 ↔
      (vcpu_has_virq_pending (vcpu_of_counters 0 3 0) ≠ 0 ∨
        vcpu_has_hwirq_pending (vcpu_of_counters 0 3 0) ≠ 0) :=
  vcpu_has_irq_iff_of_no_wrap (vcpu_of_counters 0 3 0) (by decide)

/-- C1 (counterexample): with both counters at `0x80000000` the 32-bit sum
wraps to zero, so `vcpu_has_irq` is zero although both specific queries
answer 1. -/
theorem vcpu_has_irq_wraps :
    ¬ (vcpu_has_irq (vcpu_of_counters 0 0x80000000 0x80000000) ≠ 0 ↔
        (vcpu_has_virq_pending (vcpu_of_counters 0 0x80000000 0x80000000) ≠ 0 ∨
          vcpu_has_hwirq_pending (vcpu_of_counters 0 0x80000000 0x80000000) ≠ 0)) := by
  decide

/-- C3: `vcpu_has_virq_pending` is exactly 1 when `pending_virq` is non-zero
and exactly 0 when it is zero, whatever the other fields hold; likewise
`vcpu_has_hwirq_pending` for `pending_hirq`. -/
theorem vcpu_has_pending_exact (s : virq_struct) :
    vcpu_has_virq_pending ⟨s⟩ = (if s.pending_virq = 0 then 0 else 1) ∧
    vcpu_has_hwirq_pending ⟨s⟩ = (if s.pending_hirq = 0 then 0 else 1) ∧
    (∀ a h : Nat, vcpu_has_virq_pending ⟨{ s with active_count := a, pending_hirq := h }⟩ =
      vcpu_has_virq_pending ⟨s⟩) ∧
    (∀ a p : Nat, vcpu_has_hwirq_pending ⟨{ s with active_count := a, pending_virq := p }⟩ =
      vcpu_has_hwirq_pending ⟨s⟩) :=
  ⟨rfl, rfl, fun _ _ => rfl, fun _ _ => rfl⟩

/-! ### The interrupt number space (`VIRQ_OFFSET`) -/

/-- C4: for 32-bit `v`, `VIRQ_OFFSET v` is below `MAX_VIRQ_NR` exactly for
`VIRQ_BASE ≤ v < VIRQ_BASE + MAX_VIRQ_NR`; distinct numbers have distinct
offsets; the global numbers 1024..1535 are sent onto 0..511 (number
`VIRQ_BASE + k` to `k`); and every local number lands outside the universe. -/
theorem VIRQ_OFFSET_universe (v w : Nat) (hv : v < 2 ^ 32) (hw : w < 2 ^ 32) :
    (VIRQ_OFFSET v < MAX_VIRQ_NR ↔ VIRQ_BASE ≤ v ∧ v < VIRQ_BASE + MAX_VIRQ_NR) ∧
    (VIRQ_OFFSET v = VIRQ_OFFSET w → v = w) ∧
    (VIRQ_BASE ≤ v → v < VIRQ_BASE + MAX_VIRQ_NR → VIRQ_OFFSET v = v - VIRQ_BASE) ∧
    (w < MAX_VIRQ_NR → VIRQ_BASE + w = 1024 + w ∧ VIRQ_OFFSET (VIRQ_BASE + w) = w) ∧
    (v < VIRQ_BASE → MAX_VIRQ_NR ≤ VIRQ_OFFSET v) := by
  unfold VIRQ_OFFSET VIRQ_BASE MAX_VIRQ_NR
  rw [Nat.mod_eq_of_lt hv, Nat.mod_eq_of_lt hw]
  refine ⟨?_, ?_, ?_, ?_, ?_⟩ <;> omega

theorem VIRQ_OFFSET_universe_witness :
    (VIRQ_OFFSET 1030 < MAX_VIRQ_NR ↔ VIRQ_BASE ≤ 1030 ∧ 1030 < VIRQ_BASE + MAX_VIRQ_NR) ∧
    (VIRQ_OFFSET 1030 = VIRQ_OFFSET 5 → 1030 = 5) ∧
    (VIRQ_BASE ≤ 1030 → 1030 < VIRQ_BASE + MAX_VIRQ_NR → VIRQ_OFFSET 1030 = 1030 - VIRQ_BASE) ∧
    (5 < MAX_VIRQ_NR → VIRQ_BASE + 5 = 1024 + 5 ∧ VIRQ_OFFSET (VIRQ_BASE + 5) = 5) ∧
    (1030 < VIRQ_BASE → MAX_VIRQ_NR ≤ VIRQ_OFFSET 1030) :=
  VIRQ_OFFSET_universe 1030 5 (by norm_num) (by norm_num)

/-! ### Mask / unmask -/

/-- C5: for every implementation of `virq_enable`, every number and every
state, `virq_mask` leaves exactly the state `virq_enable(virq, 0)` leaves and
`virq_unmask` exactly the state `virq_enable(virq, 1)` leaves; both return
the unit value, whatever result code `virq_enable` produced. -/
theorem virq_mask_unmask_effect {σ : Type} (virq_enable : Nat → Int → σ → Int × σ)
    (virq : Nat) (s : σ) :
    (virq_mask virq_enable virq s).2 = (virq_enable virq 0 s).2 ∧
    (virq_unmask virq_enable virq s).2 = (virq_enable virq 1 s).2 ∧
    (virq_mask virq_enable virq s).1 = () ∧
    (virq_unmask virq_enable virq s).1 = () :=
  ⟨rfl, rfl, rfl, rfl⟩

/-! ### State codes -/

/-- C7: setting `VIRQ_STATE_PENDING` maps INACTIVE to PENDING and ACTIVE to
ACTIVE_AND_PENDING, clearing `VIRQ_STATE_ACTIVE` maps ACTIVE to INACTIVE and
ACTIVE_AND_PENDING to PENDING; the five codes are pairwise distinct and
`VIRQ_STATE_OFFLINE` shares no bit with the other four. -/
theorem virq_state_codes :
    state_set VIRQ_STATE_INACTIVE VIRQ_STATE_PENDING = VIRQ_STATE_PENDING ∧
    state_set VIRQ_STATE_ACTIVE VIRQ_STATE_PENDING = VIRQ_STATE_ACTIVE_AND_PENDING ∧
    state_clear VIRQ_STATE_ACTIVE VIRQ_STATE_ACTIVE = VIRQ_STATE_INACTIVE ∧
    state_clear VIRQ_STATE_ACTIVE_AND_PENDING VIRQ_STATE_ACTIVE = VIRQ_STATE_PENDING ∧
    [VIRQ_STATE_INACTIVE, VIRQ_STATE_PENDING, VIRQ_STATE_ACTIVE,
      VIRQ_STATE_ACTIVE_AND_PENDING, VIRQ_STATE_OFFLINE].Nodup ∧
    VIRQ_STATE_OFFLINE &&& VIRQ_STATE_INACTIVE = 0 ∧
    VIRQ_STATE_OFFLINE &&& VIRQ_STATE_PENDING = 0 ∧
    VIRQ_STATE_OFFLINE &&& VIRQ_STATE_ACTIVE = 0 ∧
    VIRQ_STATE_OFFLINE &&& VIRQ_STATE_ACTIVE_AND_PENDING = 0 := by
  decide

/-! ### The injection engine: counters and lists -/

theorem getD_set_eq {α : Type} (l : List α) (j : Nat) (x d : α) (i : Nat) :
    (l.set j x).getD i d = if i = j ∧ j < l.length then x else l.getD i d := by
  rw [List.getD_eq_getElem?_getD, List.getD_eq_getElem?_getD, List.getElem?_set]
  by_cases hij : j = i
  · subst hij
    by_cases hlt : j < l.length
    · simp [hlt]
    · simp [hlt, List.getElem?_eq_none (Nat.le_of_not_lt hlt)]
  · have hji : ¬ i = j := fun h => hij h.symm
    simp [hij, hji]

theorem slot_set (s t : virq_struct) (j : Nat) (x : virq) (h : t.virqs = s.virqs.set j x)
    (hj : j < s.virqs.length) (i : Nat) : slot t i = if i = j then x else slot s i := by
  unfold slot
  rw [h, getD_set_eq]
  simp [hj]

theorem length_le_of_nodup_lt (l : List Nat) (n : Nat) (hn : l.Nodup) (hb : ∀ i ∈ l, i < n) :
    l.length ≤ n := by
  have hsub : l ⊆ List.range n := fun i hi => List.mem_range.mpr (hb i hi)
  simpa using (List.subperm_of_subset hn hsub).length_le

theorem countP_erase_add (p : Nat → Bool) (l : List Nat) (a : Nat) (ha : a ∈ l) :
    (l.erase a).countP p + (if p a then 1 else 0) = l.countP p := by
  induction l with
  | nil => simp at ha
  | cons b l ih =>
    by_cases hba : b = a
    · subst hba
      simp [List.countP_cons]
    · have hmem : a ∈ l := by
        rcases List.mem_cons.mp ha with h | h
        · exact absurd h.symm hba
        · exact h
      rw [List.erase_cons_tail (by simpa using hba), List.countP_cons, List.countP_cons,
        ← ih hmem]
      omega

theorem inc32_of_lt (c : Nat) (h : c + 1 < 2 ^ 32) : inc32 c = c + 1 := by
  unfold inc32
  exact Nat.mod_eq_of_lt h

theorem dec32_of_pos (c : Nat) (h0 : 0 < c) (h : c < 2 ^ 32) : dec32 c = c - 1 := by
  unfold dec32
  omega

theorem slot_init_state (n m i : Nat) :
    (slot (vcpu_virq_struct_init n m) i).state = VIRQ_STATE_INACTIVE := by
  unfold slot vcpu_virq_struct_init
  rw [List.getD_eq_getElem?_getD]
  simp only [List.getElem?_map]
  by_cases h : i < n
  · rw [List.getElem?_range h]
    rfl
  · rw [List.getElem?_eq_none (by simpa using h)]
    rfl

theorem virq_inv_init (n m : Nat) (h : n < 2 ^ 32) : virq_inv n (vcpu_virq_struct_init n m) := by
  have hst := slot_init_state n m
  refine ⟨h, ?_, ?_, ?_, ?_, ?_, ?_, ?_, ?_, ?_, ?_⟩
  · simp [vcpu_virq_struct_init]
  · simp [vcpu_virq_struct_init]
  · simp [vcpu_virq_struct_init]
  · simp [vcpu_virq_struct_init]
  · intro i
    rw [hst i]
    simp [vcpu_virq_struct_init, VIRQ_STATE_INACTIVE, VIRQ_STATE_PENDING,
      VIRQ_STATE_ACTIVE_AND_PENDING]
  · intro i
    rw [hst i]
    simp [vcpu_virq_struct_init, VIRQ_STATE_INACTIVE, VIRQ_STATE_ACTIVE,
      VIRQ_STATE_ACTIVE_AND_PENDING]
  · intro i _ _
    exact hst i
  · simp [vcpu_virq_struct_init]
  · simp [vcpu_virq_struct_init]
  · simp [vcpu_virq_struct_init]

theorem pending_length_le {n : Nat} {s : virq_struct} (hinv : virq_inv n s) :
    s.pending_list.length ≤ n :=
  length_le_of_nodup_lt _ _ hinv.nodup_pending fun i hi => ((hinv.mem_pending i).mp hi).1

theorem active_length_le {n : Nat} {s : virq_struct} (hinv : virq_inv n s) :
    s.active_list.length ≤ n :=
  length_le_of_nodup_lt _ _ hinv.nodup_active fun i hi => ((hinv.mem_active i).mp hi).1

theorem pending_counts_sum {n : Nat} {s : virq_struct} (hinv : virq_inv n s) :
    s.pending_virq + s.pending_hirq = s.pending_list.length := by
  rw [hinv.count_hirq, hinv.count_virq,
    List.length_eq_countP_add_countP (fun i => decide ((slot s i).hw = 0)) s.pending_list]
  congr 1
  apply List.countP_congr
  intro i _
  simp

/-- Entering the pending list: slot `i`, not yet in the list, receives a
record with pending standing and unchanged active standing. -/
theorem virq_inv_enqueue {n : Nat} {s : virq_struct} (hinv : virq_inv n s) (i : Nat)
    (hi : i < n) (x : virq) (bm : List Bool) (hnot : i ∉ s.pending_list)
    (hxp : x.state = VIRQ_STATE_PENDING ∨ x.state = VIRQ_STATE_ACTIVE_AND_PENDING)
    (hact : (x.state = VIRQ_STATE_ACTIVE ∨ x.state = VIRQ_STATE_ACTIVE_AND_PENDING) ↔
      ((slot s i).state = VIRQ_STATE_ACTIVE ∨
        (slot s i).state = VIRQ_STATE_ACTIVE_AND_PENDING))
    (hbl : bm.length = n)
    (hbm : ∀ k, k < n → bm.getD k false = false →
      k ≠ i ∧ s.irq_bitmap.getD k false = false) :
    virq_inv n (pending_inc
      { s with
        virqs := s.virqs.set i x
        irq_bitmap := bm
        pending_list := s.pending_list ++ [i] } x.hw) := by
  have hlen : i < s.virqs.length := by rw [hinv.len_virqs]; exact hi
  have hslot : ∀ (t : virq_struct), t.virqs = s.virqs.set i x →
      ∀ k, slot t k = if k = i then x else slot s k :=
    fun t ht k => slot_set s t i x ht hlen k
  have hnd : (s.pending_list ++ [i]).Nodup := by
    rw [List.nodup_append]
    refine ⟨hinv.nodup_pending, List.nodup_singleton i, ?_⟩
    intro k hk hk2
    rw [List.mem_singleton] at hk2
    subst hk2
    exact hnot hk
  have hbound : s.pending_list.length + 1 ≤ n := by
    have := length_le_of_nodup_lt (s.pending_list ++ [i]) n hnd (by
      intro k hk
      rcases List.mem_append.mp hk with h | h
      · exact ((hinv.mem_pending k).mp h).1
      · rw [List.mem_singleton] at h
        rw [h]
        exact hi)
    simpa using this
  have hcap := hinv.cap
  have hsum := pending_counts_sum hinv
  have hcnt : ∀ (t : virq_struct), t.virqs = s.virqs.set i x → ∀ (f : virq → Bool),
      (s.pending_list ++ [i]).countP (fun k => f (slot t k)) =
        s.pending_list.countP (fun k => f (slot s k)) + (if f x then 1 else 0) := by
    intro t ht f
    rw [List.countP_append]
    congr 1
    · apply List.countP_congr
      intro k hk
      rw [hslot t ht k]
      have hki : k ≠ i := fun h => hnot (h ▸ hk)
      simp [hki]
    · simp [List.countP_cons, hslot t ht i]
  unfold pending_inc
  split
  · rename_i hw0
    refine ⟨hcap, ?_, hbl, hnd, hinv.nodup_active, ?_, ?_, ?_, hinv.count_active, ?_, ?_⟩
    · simp [hinv.len_virqs]
    · intro k
      rw [hslot _ rfl k]
      by_cases hki : k = i
      · subst hki
        simp [hi, hxp]
      · simp only [hki, if_false, List.mem_append, List.mem_singleton, or_false]
        exact hinv.mem_pending k
    · intro k
      rw [hslot _ rfl k]
      by_cases hki : k = i
      · subst hki
        simp only [if_true]
        rw [hact]
        exact hinv.mem_active k
      · simp only [hki, if_false]
        exact hinv.mem_active k
    · intro k hk hb
      rw [hslot _ rfl k]
      have := hbm k hk hb
      simp only [this.1, if_false]
      exact hinv.free_inactive k hk this.2
    · show s.pending_hirq = _
      rw [hcnt _ rfl (fun r => decide (r.hw ≠ 0)), ← hinv.count_hirq]
      simp [hw0]
    · show inc32 s.pending_virq = _
      rw [hcnt _ rfl (fun r => decide (r.hw = 0)), ← hinv.count_virq]
      simp only [hw0, decide_True, if_true]
      apply inc32_of_lt
      omega
  · rename_i hw0
    refine ⟨hcap, ?_, hbl, hnd, hinv.nodup_active, ?_, ?_, ?_, hinv.count_active, ?_, ?_⟩
    · simp [hinv.len_virqs]
    · intro k
      rw [hslot _ rfl k]
      by_cases hki : k = i
      · subst hki
        simp [hi, hxp]
      · simp only [hki, if_false, List.mem_append, List.mem_singleton, or_false]
        exact hinv.mem_pending k
    · intro k
      rw [hslot _ rfl k]
      by_cases hki : k = i
      · subst hki
        simp only [if_true]
        rw [hact]
        exact hinv.mem_active k
      · simp only [hki, if_false]
        exact hinv.mem_active k
    · intro k hk hb
      rw [hslot _ rfl k]
      have := hbm k hk hb
      simp only [this.1, if_false]
      exact hinv.free_inactive k hk this.2
    · show inc32 s.pending_hirq = _
      rw [hcnt _ rfl (fun r => decide (r.hw ≠ 0)), ← hinv.count_hirq]
      simp only [ne_eq, hw0, not_false_eq_true, decide_True, if_true]
      apply inc32_of_lt
      omega
    · show s.pending_virq = _
      rw [hcnt _ rfl (fun r => decide (r.hw = 0)), ← hinv.count_virq]
      simp [hw0]

theorem find_live_some {s : virq_struct} {v i : Nat} (h : find_live s v = some i) :
    i < s.virqs.length ∧ s.irq_bitmap.getD i false = true := by
  unfold find_live at h
  have hm := List.mem_of_find?_eq_some h
  have hp := List.find?_some h
  simp only [Bool.and_eq_true] at hp
  exact ⟨List.mem_range.mp hm, hp.1⟩

theorem find_free_some {s : virq_struct} {i : Nat} (h : find_free s = some i) :
    i < s.irq_bitmap.length ∧ s.irq_bitmap.getD i false = false := by
  unfold find_free at h
  have hm := List.mem_of_find?_eq_some h
  have hp := List.find?_some h
  simp only [Bool.not_eq_true'] at hp
  exact ⟨List.mem_range.mp hm, hp⟩

theorem virq_inv_inject {n : Nat} {s t : virq_struct} (desc : Nat → Option Nat)
    (v : Nat) (hn : Option Nat) (hinv : virq_inv n s) (h : inject desc n s v hn = .ok t) :
    virq_inv n t := by
  unfold inject at h
  split at h
  · cases h
  · split at h
    · cases h
    · split at h
      · rename_i i hfind
        obtain ⟨hil, hbit⟩ := find_live_some hfind
        rw [hinv.len_virqs] at hil
        split at h
        · rename_i hst
          injection h with h
          subst h
          refine virq_inv_enqueue hinv i hil
            { slot s i with state := state_set (slot s i).state VIRQ_STATE_PENDING }
            s.irq_bitmap ?_ ?_ ?_ hinv.len_bitmap ?_
          · intro hmem
            have := ((hinv.mem_pending i).mp hmem).2
            rw [hst] at this
            revert this
            decide
          · dsimp only
            rw [hst]
            decide
          · dsimp only
            rw [hst]
            decide
          · intro k _ hk
            refine ⟨?_, hk⟩
            intro hki
            rw [hki, hbit] at hk
            cases hk
        · injection h with h
          subst h
          exact hinv
      · split at h
        · cases h
        · rename_i i hfind
          obtain ⟨hil, hbit⟩ := find_free_some hfind
          rw [hinv.len_bitmap] at hil
          have hst := hinv.free_inactive i hil hbit
          injection h with h
          subst h
          refine virq_inv_enqueue hinv i hil
            { h_intno := hn.getD 0
              v_intno := v
              hw := if hn.isSome then 1 else 0
              state := state_set VIRQ_STATE_INACTIVE VIRQ_STATE_PENDING
              id := i
              pr := _ }
            (s.irq_bitmap.set i true) ?_ ?_ ?_ ?_ ?_
          · intro hmem
            have := ((hinv.mem_pending i).mp hmem).2
            rw [hst] at this
            revert this
            decide
          · dsimp only
            decide
          · dsimp only
            rw [hst]
            decide
          · simp [hinv.len_bitmap]
          · intro k _ hk
            rw [getD_set_eq] at hk
            by_cases hki : k = i
            · rw [if_pos ⟨hki, by rw [hinv.len_bitmap]; exact hil⟩] at hk
              cases hk
            · rw [if_neg (fun hc => hki hc.1)] at hk
              exact ⟨hki, hk⟩

theorem select_min_mem (s : virq_struct) (l : List Nat) (i : Nat)
    (h : select_min s l = some i) : i ∈ l := by
  induction l generalizing i with
  | nil => simp [select_min] at h
  | cons a l ih =>
    unfold select_min at h
    split at h
    · injection h with h
      simp [h]
    · rename_i j hj
      split at h
      · injection h with h
        simp [h]
      · injection h with h
        subst h
        exact List.mem_cons_of_mem _ (ih j hj)

theorem virq_inv_promote {n : Nat} {s : virq_struct} {r : virq_struct × Nat × Nat}
    (hinv : virq_inv n s) (h : promote_next_pending s = .ok r) : virq_inv n r.1 := by
  unfold promote_next_pending at h
  split at h
  · cases h
  · rename_i i hsel
    injection h with h
    subst h
    have hel := select_min_mem s _ i hsel
    unfold eligible at hel
    rw [List.mem_filter] at hel
    obtain ⟨hmem, hst⟩ := hel
    have hst : (slot s i).state = VIRQ_STATE_PENDING := by simpa using hst
    have hi : i < n := ((hinv.mem_pending i).mp hmem).1
    have hlen : i < s.virqs.length := by rw [hinv.len_virqs]; exact hi
    have hslot : ∀ (t : virq_struct),
        t.virqs = s.virqs.set i { slot s i with state := VIRQ_STATE_ACTIVE } →
        ∀ k, slot t k = if k = i then { slot s i with state := VIRQ_STATE_ACTIVE }
          else slot s k :=
      fun t ht k => slot_set s t i _ ht hlen k
    have hnotact : i ∉ s.active_list := by
      intro hc
      have := ((hinv.mem_active i).mp hc).2
      rw [hst] at this
      revert this
      decide
    have hnd : (s.active_list ++ [i]).Nodup := by
      rw [List.nodup_append]
      refine ⟨hinv.nodup_active, List.nodup_singleton i, ?_⟩
      intro k hk hk2
      rw [List.mem_singleton] at hk2
      subst hk2
      exact hnotact hk
    have hbound : s.active_list.length + 1 ≤ n := by
      have := length_le_of_nodup_lt (s.active_list ++ [i]) n hnd (by
        intro k hk
        rcases List.mem_append.mp hk with h | h
        · exact ((hinv.mem_active k).mp h).1
        · rw [List.mem_singleton] at h
          rw [h]
          exact hi)
      simpa using this
    have hcap := hinv.cap
    have hsum := pending_counts_sum hinv
    have hple := pending_length_le hinv
    have hnde := hinv.nodup_pending.erase i
    have hcnt : ∀ (f : virq → Bool),
        f { slot s i with state := VIRQ_STATE_ACTIVE } = f (slot s i) →
        (s.pending_list.erase i).countP (fun k => f
            ((s.virqs.set i { slot s i with state := VIRQ_STATE_ACTIVE }).getD k default)) +
          (if f (slot s i) then 1 else 0) =
          s.pending_list.countP (fun k => f (slot s k)) := by
      intro f _
      rw [← countP_erase_add (fun k => f (slot s k)) s.pending_list i hmem]
      congr 1
      apply List.countP_congr
      intro k hk
      rw [getD_set_eq]
      have hki : k ≠ i := ((hinv.nodup_pending.mem_erase_iff).mp hk).1
      simp [hki, slot]
    have hmp : ∀ (t : virq_struct),
        t.virqs = s.virqs.set i { slot s i with state := VIRQ_STATE_ACTIVE } →
        ∀ k, k ∈ s.pending_list.erase i ↔
          k < n ∧ ((slot t k).state = VIRQ_STATE_PENDING ∨
            (slot t k).state = VIRQ_STATE_ACTIVE_AND_PENDING) := by
      intro t ht k
      rw [hinv.nodup_pending.mem_erase_iff, hslot t ht k]
      by_cases hki : k = i
      · subst hki
        simp only [ne_eq, not_true_eq_false, false_and, if_true, false_iff]
        rintro ⟨_, hc⟩
        revert hc
        decide
      · simp only [ne_eq, hki, not_false_eq_true, true_and, if_false]
        exact hinv.mem_pending k
    have hma : ∀ (t : virq_struct),
        t.virqs = s.virqs.set i { slot s i with state := VIRQ_STATE_ACTIVE } →
        ∀ k, k ∈ s.active_list ++ [i] ↔
          k < n ∧ ((slot t k).state = VIRQ_STATE_ACTIVE ∨
            (slot t k).state = VIRQ_STATE_ACTIVE_AND_PENDING) := by
      intro t ht k
      rw [hslot t ht k]
      by_cases hki : k = i
      · subst hki
        simp [hi]
      · simp only [hki, if_false, List.mem_append, List.mem_singleton, or_false]
        exact hinv.mem_active k
    have hfree : ∀ (t : virq_struct),
        t.virqs = s.virqs.set i { slot s i with state := VIRQ_STATE_ACTIVE } →
        ∀ k, k < n → s.irq_bitmap.getD k false = false →
          (slot t k).state = VIRQ_STATE_INACTIVE := by
      intro t ht k hk hb
      rw [hslot t ht k]
      have hold := hinv.free_inactive k hk hb
      by_cases hki : k = i
      · subst hki
        rw [hst] at hold
        exact absurd hold (by decide)
      · simp only [hki, if_false]
        exact hold
    have hac : inc32 s.active_count = (s.active_list ++ [i]).length := by
      rw [hinv.count_active, List.length_append, List.length_singleton]
      apply inc32_of_lt
      omega
    have hh := hcnt (fun r => decide (r.hw ≠ 0)) rfl
    have hv := hcnt (fun r => decide (r.hw = 0)) rfl
    rw [← hinv.count_hirq] at hh
    rw [← hinv.count_virq] at hv
    show virq_inv n (pending_dec _ _)
    unfold pending_dec
    split
    · rename_i hw0
      have e1 : (if decide ((slot s i).hw ≠ 0) = true then 1 else 0) = 0 := by simp [hw0]
      have e2 : (if decide ((slot s i).hw = 0) = true then 1 else 0) = 1 := by simp [hw0]
      rw [e1] at hh
      rw [e2] at hv
      refine ⟨hcap, ?_, hinv.len_bitmap, hnde, hnd, hmp _ rfl, hma _ rfl, hfree _ rfl, hac,
        ?_, ?_⟩
      · simp [hinv.len_virqs]
      · exact hh.symm
      · exact (dec32_of_pos s.pending_virq (by omega) (by omega)).trans
          (Nat.sub_eq_of_eq_add hv.symm)
    · rename_i hw0
      have e1 : (if decide ((slot s i).hw ≠ 0) = true then 1 else 0) = 1 := by simp [hw0]
      have e2 : (if decide ((slot s i).hw = 0) = true then 1 else 0) = 0 := by simp [hw0]
      rw [e1] at hh
      rw [e2] at hv
      refine ⟨hcap, ?_, hinv.len_bitmap, hnde, hnd, hmp _ rfl, hma _ rfl, hfree _ rfl, hac,
        ?_, ?_⟩
      · simp [hinv.len_virqs]
      · exact (dec32_of_pos s.pending_hirq (by omega) (by omega)).trans
          (Nat.sub_eq_of_eq_add hh.symm)
      · exact hv.symm

theorem virq_inv_complete {n : Nat} {s t : virq_struct} (j : Nat)
    (hinv : virq_inv n s) (h : complete s j = .ok t) : virq_inv n t := by
  unfold complete at h
  split at h
  · rename_i hcond
    obtain ⟨hlen, hst⟩ := hcond
    injection h with h
    subst h
    have hj : j < n := by rw [← hinv.len_virqs]; exact hlen
    have hmem : j ∈ s.active_list := (hinv.mem_active j).mpr ⟨hj, hst⟩
    have hslot : ∀ (t : virq_struct),
        t.virqs = s.virqs.set j
          { slot s j with state := state_clear (slot s j).state VIRQ_STATE_ACTIVE } →
        ∀ k, slot t k =
          if k = j then
            { slot s j with state := state_clear (slot s j).state VIRQ_STATE_ACTIVE }
          else slot s k :=
      fun t ht k => slot_set s t j _ ht hlen k
    have hcap := hinv.cap
    have hale := active_length_le hinv
    have hpos : 0 < s.active_list.length := List.length_pos_of_mem hmem
    refine ⟨hcap, ?_, ?_, hinv.nodup_pending, hinv.nodup_active.erase j, ?_, ?_, ?_, ?_, ?_, ?_⟩
    · simp [hinv.len_virqs]
    · dsimp only
      split
      · simp [hinv.len_bitmap]
      · exact hinv.len_bitmap
    · intro k
      rw [hslot _ rfl k, hinv.mem_pending k]
      by_cases hkj : k = j
      · subst hkj
        simp only [if_true]
        refine and_congr_right fun _ => ?_
        rcases hst with h2 | h3
        · rw [h2]
          decide
        · rw [h3]
          decide
      · simp only [hkj, if_false]
    · intro k
      rw [hslot _ rfl k, hinv.nodup_active.mem_erase_iff]
      by_cases hkj : k = j
      · subst hkj
        simp only [ne_eq, not_true_eq_false, false_and, if_true, false_iff]
        rintro ⟨_, hc⟩
        rcases hst with h2 | h3
        · rw [h2] at hc
          revert hc
          decide
        · rw [h3] at hc
          revert hc
          decide
      · simp only [ne_eq, hkj, not_false_eq_true, true_and, if_false]
        exact hinv.mem_active k
    · intro k hk hb
      rw [hslot _ rfl k]
      dsimp only at hb
      by_cases hkj : k = j
      · subst hkj
        simp only [if_true]
        split at hb
        · rename_i hz
          exact hz
        · have hold := hinv.free_inactive k hk hb
          rcases hst with h2 | h3
          · rw [h2] at hold
            exact absurd hold (by decide)
          · rw [h3] at hold
            exact absurd hold (by decide)
      · simp only [hkj, if_false]
        apply hinv.free_inactive k hk
        split at hb
        · rw [getD_set_eq, if_neg (fun hc => hkj hc.1)] at hb
          exact hb
        · exact hb
    · show dec32 s.active_count = _
      rw [List.length_erase_of_mem hmem, hinv.count_active]
      exact dec32_of_pos _ hpos (by omega)
    · show s.pending_hirq = _
      rw [hinv.count_hirq]
      symm
      apply List.countP_congr
      intro k _
      rw [hslot _ rfl k]
      by_cases hkj : k = j
      · subst hkj
        simp
      · simp [hkj]
    · show s.pending_virq = _
      rw [hinv.count_virq]
      symm
      apply List.countP_congr
      intro k _
      rw [hslot _ rfl k]
      by_cases hkj : k = j
      · subst hkj
        simp
      · simp [hkj]
  · cases h

theorem virq_inv_apply_op {n : Nat} {s : virq_struct} (desc : Nat → Option Nat)
    (op : virq_op) (hinv : virq_inv n s) : virq_inv n (apply_op desc n s op) := by
  cases op with
  | inject v h =>
    show virq_inv n (match inject desc n s v h with
      | .ok s1 => s1
      | .error _ => s)
    cases hs : inject desc n s v h with
    | ok s1 => exact virq_inv_inject desc v h hinv hs
    | error e => exact hinv
  | promote =>
    show virq_inv n (match promote_next_pending s with
      | .ok r => r.1
      | .error _ => s)
    cases hs : promote_next_pending s with
    | ok r => exact virq_inv_promote hinv hs
    | error e => exact hinv
  | complete i =>
    show virq_inv n (match complete s i with
      | .ok s1 => s1
      | .error _ => s)
    cases hs : complete s i with
    | ok s1 => exact virq_inv_complete i hinv hs
    | error e => exact hinv

theorem virq_inv_foldl {n : Nat} (desc : Nat → Option Nat) (ops : List virq_op)
    (s : virq_struct) (hinv : virq_inv n s) :
    virq_inv n (ops.foldl (apply_op desc n) s) := by
  induction ops generalizing s with
  | nil => exact hinv
  | cons op ops ih => exact ih _ (virq_inv_apply_op desc op hinv)

/-- C2: after every sequence of inject / promote / complete operations on a
freshly initialised `virq_struct` (of a capacity that a 32-bit counter can
count), `active_count` is the length of `active_list` and
`pending_virq + pending_hirq` is the length of `pending_list`.  As the
sequence is arbitrary, this holds after each of its operations. -/
theorem virq_counters_track_lists (desc : Nat → Option Nat) (max_irqs max_local : Nat)
    (ops : List virq_op) (hcap : max_irqs < 2 ^ 32) :
    (run_ops desc max_irqs max_local ops).active_count =
      (run_ops desc max_irqs max_local ops).active_list.length ∧
    (run_ops desc max_irqs max_local ops).pending_virq +
        (run_ops desc max_irqs max_local ops).pending_hirq =
      (run_ops desc max_irqs max_local ops).pending_list.length := by
  have hinv : virq_inv max_irqs (run_ops desc max_irqs max_local ops) :=
    virq_inv_foldl desc ops _ (virq_inv_init max_irqs max_local hcap)
  exact ⟨hinv.count_active, pending_counts_sum hinv⟩

/-! ### Image loading (`xnu_load_image`) -/

theorem xnu_load_raw_data_nonpos (io : io_outcome) (file_size : Nat) :
    xnu_load_raw_data io file_size ≤ 0 := by
  unfold xnu_load_raw_data EIO
  split
  · exact le_refl 0
  · split
    · decide
    · split
      · assumption
      · exact le_refl 0

theorem xnu_load_raw_data_ge (io : io_outcome) (file_size : Nat)
    (h : -1 ≤ io.read_ret ∧ io.read_ret < 2 ^ 31) :
    -5 ≤ xnu_load_raw_data io file_size := by
  unfold xnu_load_raw_data EIO wrap32
  split
  · decide
  · split
    · decide
    · split
      · omega
      · decide

theorem load_segments_nonpos (io : Nat → io_outcome) (l : List segment_cmd64) (k : Nat) :
    load_segments io l k ≤ 0 := by
  induction l generalizing k with
  | nil => exact le_refl 0
  | cons c l ih =>
    unfold load_segments
    split
    · exact xnu_load_raw_data_nonpos _ _
    · exact ih (k + 1)

theorem load_segments_ge (io : Nat → io_outcome) (l : List segment_cmd64) (k : Nat)
    (h : ∀ k, -1 ≤ (io k).read_ret ∧ (io k).read_ret < 2 ^ 31) :
    -5 ≤ load_segments io l k := by
  induction l generalizing k with
  | nil => unfold load_segments; decide
  | cons c l ih =>
    unfold load_segments
    split
    · exact xnu_load_raw_data_ge _ _ (h k)
    · exact ih (k + 1)

theorem xnu_load_stages_nonpos (env : load_env) (vm : vm) (od : xnu_os_data) :
    xnu_load_kernel_image env vm od ≤ 0 ∧ xnu_load_ramdisk env vm od ≤ 0 ∧
    xnu_load_dtb env vm od ≤ 0 ∧ xnu_load_tc env vm od ≤ 0 := by
  refine ⟨?_, ?_, ?_, ?_⟩
  · unfold xnu_load_kernel_image ENOENT
    split
    · decide
    · exact load_segments_nonpos _ _ _
  · unfold xnu_load_ramdisk ENOENT
    split
    · decide
    · exact xnu_load_raw_data_nonpos _ _
  · unfold xnu_load_dtb ENOENT
    split
    · decide
    · exact xnu_load_raw_data_nonpos _ _
  · exact xnu_load_raw_data_nonpos _ _

theorem xnu_load_stages_ge (env : load_env) (vm : vm) (od : xnu_os_data)
    (h : reads_fit_int env) :
    -5 ≤ xnu_load_kernel_image env vm od ∧ -5 ≤ xnu_load_ramdisk env vm od ∧
    -5 ≤ xnu_load_dtb env vm od ∧ -5 ≤ xnu_load_tc env vm od := by
  obtain ⟨hk, hr, hd, ht⟩ := h
  refine ⟨?_, ?_, ?_, ?_⟩
  · unfold xnu_load_kernel_image ENOENT
    split
    · decide
    · exact load_segments_ge _ _ _ hk
  · unfold xnu_load_ramdisk ENOENT
    split
    · decide
    · exact xnu_load_raw_data_ge _ _ hr
  · unfold xnu_load_dtb ENOENT
    split
    · decide
    · exact xnu_load_raw_data_ge _ _ hd
  · exact xnu_load_raw_data_ge _ _ ht

/-- C9: for every outcome of the `lseek` and `read` calls each of the four load
stages returns a value `≤ 0`; so, the reads delivering what a `read` can
deliver (-1 or a byte count below `2^31`), the `int` sum that
`xnu_load_image` returns is 0 exactly when all four stages returned 0: error
codes never cancel to a false success. -/
theorem xnu_load_image_zero_iff (env : load_env) (vm : vm) (od : xnu_os_data) :
    (xnu_load_kernel_image env vm od ≤ 0 ∧ xnu_load_ramdisk env vm od ≤ 0 ∧
      xnu_load_dtb env vm od ≤ 0 ∧ xnu_load_tc env vm od ≤ 0) ∧
    (reads_fit_int env →
      (xnu_load_image env vm od = 0 ↔
        (xnu_load_kernel_image env vm od = 0 ∧ xnu_load_ramdisk env vm od = 0 ∧
          xnu_load_dtb env vm od = 0 ∧ xnu_load_tc env vm od = 0))) := by
  refine ⟨xnu_load_stages_nonpos env vm od, fun h => ?_⟩
  obtain ⟨a1, a2, a3, a4⟩ := xnu_load_stages_nonpos env vm od
  obtain ⟨b1, b2, b3, b4⟩ := xnu_load_stages_ge env vm od h
  unfold xnu_load_image wrap32
  constructor
  · intro hs
    omega
  · rintro ⟨e1, e2, e3, e4⟩
    rw [e1, e2, e3, e4]
    decide

theorem xnu_load_image_zero_iff_witness :
    xnu_load_image load_ok_env load_ex_vm load_ex_od = 0 ↔
      (xnu_load_kernel_image load_ok_env load_ex_vm load_ex_od = 0 ∧
        xnu_load_ramdisk load_ok_env load_ex_vm load_ex_od = 0 ∧
        xnu_load_dtb load_ok_env load_ex_vm load_ex_od = 0 ∧
        xnu_load_tc load_ok_env load_ex_vm load_ex_od = 0) :=
  (xnu_load_image_zero_iff load_ok_env load_ex_vm load_ex_od).2
    ⟨fun _ => ⟨(by decide : (-1 : Int) ≤ 4096), (by decide : (4096 : Int) < 2 ^ 31)⟩,
      ⟨by decide, by decide⟩, ⟨by decide, by decide⟩,
      ⟨by decide, by decide⟩⟩

/-! ### Address-space layout (`xnu_parse_address_space`) -/

theorem MASK64K_eq : MASK64K = 2 ^ 16 * (2 ^ 48 - 1) := by
  unfold MASK64K
  norm_num

theorem and_MASK64K (y : Nat) (hy : y < 2 ^ 64) : y &&& MASK64K = 2 ^ 16 * (y / 2 ^ 16) := by
  apply Nat.eq_of_testBit_eq
  intro i
  rw [Nat.testBit_and, MASK64K_eq, Nat.testBit_mul_pow_two, Nat.testBit_mul_pow_two,
    Nat.testBit_two_pow_sub_one, ← Nat.shiftRight_eq_div_pow, Nat.testBit_shiftRight]
  by_cases h16 : 16 ≤ i
  · have e : 16 + (i - 16) = i := by omega
    rw [e]
    by_cases h64 : i < 64
    · have : i - 16 < 48 := by omega
      simp [h16, this]
    · have hlt : y < 2 ^ i :=
        lt_of_lt_of_le hy (Nat.pow_le_pow_right (by norm_num) (by omega))
      simp [Nat.testBit_lt_two_pow hlt]
  · simp [h16]

theorem align64k_spec (x : Nat) (h : x + 0xffff < 2 ^ 64) :
    x ≤ align64k x ∧ align64k x % 0x10000 = 0 ∧ align64k x < x + 0x10000 := by
  unfold align64k add64
  rw [Nat.mod_eq_of_lt h, and_MASK64K _ h]
  omega

theorem highlow_foldl (l : List segment_cmd64) (lh : Nat × Nat) :
    (l.foldl highlow_step lh).1 ≤ lh.1 ∧ lh.2 ≤ (l.foldl highlow_step lh).2 ∧
    ∀ c ∈ l, (l.foldl highlow_step lh).1 ≤ c.vm_addr ∧
      add64 c.vm_addr c.vm_size ≤ (l.foldl highlow_step lh).2 := by
  induction l generalizing lh with
  | nil => simp
  | cons a l ih =>
    rw [List.foldl_cons]
    obtain ⟨h1, h2, h3⟩ := ih (highlow_step lh a)
    have s1 : (highlow_step lh a).1 ≤ lh.1 ∧ (highlow_step lh a).1 ≤ a.vm_addr := by
      unfold highlow_step
      dsimp only
      split <;> omega
    have s2 : lh.2 ≤ (highlow_step lh a).2 ∧
        add64 a.vm_addr a.vm_size ≤ (highlow_step lh a).2 := by
      unfold highlow_step
      dsimp only
      split <;> omega
    refine ⟨le_trans h1 s1.1, le_trans s2.1 h2, ?_⟩
    intro c hc
    rcases List.mem_cons.mp hc with hca | hcl
    · subst hca
      exact ⟨le_trans h1 s1.2, le_trans s2.2 h2⟩
    · exact h3 c hcl

theorem add64_of_lt (a b : Nat) (h : a + b < 2 ^ 64) : add64 a b = a + b := by
  unfold add64
  exact Nat.mod_eq_of_lt h

theorem align64k_add (a b : Nat) (h : a + b + 0xffff < 2 ^ 64) :
    a + b ≤ align64k (add64 a b) ∧ align64k (add64 a b) % 0x10000 = 0 ∧
      align64k (add64 a b) < a + b + 0x10000 := by
  rw [add64_of_lt a b (by omega)]
  exact align64k_spec (a + b) h

/-- C8: when no addition of `xnu_parse_address_space` wraps, the images are
laid out in order without overlap: every segment range lies between
`kernel_load_base` and `ramdisk_load_base`, the ramdisk ends at or before
`dtb_load_base`, the device tree at or before `bootarg_load_base`, the boot
arguments at or before `load_end`, and `load_end` is a multiple of
`0x10000`. -/
theorem xnu_layout_ordered (fstat : Int → Option stat) (bootargs_size : Nat)
    (mb : mem_block) (vm : vm) (od : xnu_os_data)
    (h : layout_no_wrap fstat bootargs_size mb vm od) :
    (∀ c ∈ od.root,
      (parsed_od fstat bootargs_size mb vm od).kernel_load_base ≤ c.vm_addr ∧
      c.vm_addr + c.vm_size ≤ (parsed_od fstat bootargs_size mb vm od).ramdisk_load_base) ∧
    (parsed_od fstat bootargs_size mb vm od).ramdisk_load_base +
        (parsed_od fstat bootargs_size mb vm od).ramdisk_size ≤
      (parsed_od fstat bootargs_size mb vm od).dtb_load_base ∧
    (parsed_od fstat bootargs_size mb vm od).dtb_load_base +
        (parsed_od fstat bootargs_size mb vm od).dtb_size ≤
      (parsed_od fstat bootargs_size mb vm od).bootarg_load_base ∧
    (parsed_od fstat bootargs_size mb vm od).bootarg_load_base + bootargs_size ≤
      (parsed_od fstat bootargs_size mb vm od).load_end ∧
    (parsed_od fstat bootargs_size mb vm od).load_end % 0x10000 = 0 := by
  obtain ⟨hseg, hr, hd, hb⟩ := h
  have hhl := (highlow_foldl od.root (2 ^ 64 - 1, 0)).2.2
  have hsegs : ∀ c ∈ od.root, (xnu_get_macho_highlow od).1 ≤ c.vm_addr ∧
      c.vm_addr + c.vm_size ≤ (xnu_get_macho_highlow od).2 := by
    intro c hc
    have := hhl c hc
    rw [add64_of_lt _ _ (hseg c hc)] at this
    exact this
  revert hr hd hb
  unfold parsed_od xnu_parse_address_space
  cases hR : regular_file fstat vm.rfd with
  | none =>
    cases hD : regular_file fstat vm.dfd with
    | none =>
      dsimp only
      intro _ _ hb
      have hA := align64k_add _ _ hb
      refine ⟨hsegs, ?_, ?_, ?_, ?_⟩ <;> omega
    | some st =>
      dsimp only
      intro _ hd hb
      have hd := hd rfl
      have hB := align64k_add _ _ hd
      have hA := align64k_add _ _ hb
      refine ⟨hsegs, ?_, ?_, ?_, ?_⟩ <;> omega
  | some sr =>
    cases hD : regular_file fstat vm.dfd with
    | none =>
      dsimp only
      intro hr _ hb
      have hr := hr rfl
      have hC := align64k_add _ _ hr
      have hA := align64k_add _ _ hb
      refine ⟨hsegs, ?_, ?_, ?_, ?_⟩ <;> omega
    | some st =>
      dsimp only
      intro hr hd hb
      have hr := hr rfl
      have hd := hd rfl
      have hC := align64k_add _ _ hr
      have hB := align64k_add _ _ hd
      have hA := align64k_add _ _ hb
      refine ⟨hsegs, ?_, ?_, ?_, ?_⟩ <;> omega

/-! ### Device-tree fix-up (`xnu_setup_env`) -/

theorem scan_none_iff (p : Nat → Bool) (k i : Nat) :
    scan p k i = none ↔ ∀ j, i ≤ j → j < i + k → p j = false := by
  induction k generalizing i with
  | zero =>
    unfold scan
    constructor
    · intro _ j h1 h2
      omega
    · intro _
      rfl
  | succ k ih =>
    unfold scan
    by_cases hp : p i = true
    · rw [if_pos hp]
      constructor
      · intro h
        cases h
      · intro h
        have := h i (le_refl i) (by omega)
        rw [hp] at this
        cases this
    · rw [if_neg hp, ih (i + 1)]
      constructor
      · intro h j h1 h2
        by_cases hji : j = i
        · subst hji
          simpa using hp
        · exact h j (by omega) (by omega)
      · intro h j h1 h2
        exact h j (by omega) (by omega)

theorem scan_some_iff (p : Nat → Bool) (k i j : Nat) :
    scan p k i = some j ↔
      (i ≤ j ∧ j < i + k ∧ p j = true ∧ ∀ l, i ≤ l → l < j → p l = false) := by
  induction k generalizing i with
  | zero =>
    unfold scan
    constructor
    · intro h
      cases h
    · rintro ⟨h1, h2, _, _⟩
      omega
  | succ k ih =>
    unfold scan
    by_cases hp : p i = true
    · rw [if_pos hp]
      constructor
      · intro h
        injection h with h
        subst h
        exact ⟨le_refl _, by omega, hp, fun l h1 h2 => by omega⟩
      · rintro ⟨h1, _, _, h4⟩
        by_cases hji : j = i
        · rw [hji]
        · have := h4 i (le_refl i) (by omega)
          rw [hp] at this
          cases this
    · rw [if_neg hp, ih (i + 1)]
      constructor
      · rintro ⟨h1, h2, h3, h4⟩
        refine ⟨by omega, by omega, h3, ?_⟩
        intro l hl1 hl2
        by_cases hli : l = i
        · subst hli
          simpa using hp
        · exact h4 l (by omega) hl2
      · rintro ⟨h1, h2, h3, h4⟩
        have hji : j ≠ i := by
          intro hc
          rw [hc] at h3
          exact hp h3
        exact ⟨by omega, by omega, h3, fun l hl1 hl2 => h4 l (by omega) hl2⟩

/-- For a name without NUL characters and a comparison length that covers the
name and its terminator, `strncmp` returns 0 exactly when the terminated
name stands at the offset. -/
theorem strncmp_eq_zero_iff (mem : Mem) (name : List Nat) (hnz : ∀ c ∈ name, c ≠ 0)
    (n p : Nat) (hn : name.length + 1 ≤ n) :
    strncmp mem p name n = 0 ↔ occurs_at mem name p := by
  induction name generalizing n p with
  | nil =>
    obtain ⟨m, rfl⟩ : ∃ m, n = m + 1 := ⟨n - 1, by simp at hn; omega⟩
    unfold strncmp occurs_at
    simp only [List.headD_nil, List.length_nil, Nat.zero_add, Nat.lt_one_iff]
    by_cases h0 : mem p = 0
    · simp [h0]
    · simp only [ne_eq, h0, not_false_eq_true, if_true, Nat.cast_zero, sub_zero]
      constructor
      · intro h
        exact absurd (Int.ofNat_eq_zero.mp h) h0
      · intro h
        have := h 0 rfl
        simp at this
        exact absurd this h0
  | cons c cs ih =>
    obtain ⟨m, rfl⟩ : ∃ m, n = m + 1 := ⟨n - 1, by simp at hn; omega⟩
    have hc : c ≠ 0 := hnz c (List.mem_cons_self c cs)
    have hcs : ∀ d ∈ cs, d ≠ 0 := fun d hd => hnz d (List.mem_cons_of_mem c hd)
    have hm : cs.length + 1 ≤ m := by simp at hn; omega
    unfold strncmp
    simp only [List.headD_cons, List.tail_cons]
    by_cases hpc : mem p = c
    · have hp0 : mem p ≠ 0 := by rw [hpc]; exact hc
      rw [if_neg (by simp [hpc]), if_neg hp0, ih hcs m (p + 1) hm]
      unfold occurs_at
      constructor
      · intro h k hk
        cases k with
        | zero => simpa using hpc
        | succ k =>
          have := h k (by simp at hk; omega)
          rw [List.getD_cons_succ]
          rw [← this]
          congr 1
          omega
      · intro h k hk
        have := h (k + 1) (by simp; omega)
        rw [List.getD_cons_succ] at this
        rw [← this]
        congr 1
        omega
    · rw [if_pos hpc]
      constructor
      · intro h
        exfalso
        apply hpc
        have : (mem p : Int) = (c : Int) := by omega
        exact Int.ofNat_inj.mp this
      · intro h
        exfalso
        apply hpc
        have := h 0 (by simp)
        simpa using this

theorem cstr_name0_nonzero : ∀ c ∈ cstr "MemoryMapReserved-0", c ≠ 0 := by decide

theorem cstr_name1_nonzero : ∀ c ∈ cstr "MemoryMapReserved-1", c ≠ 0 := by decide

theorem find_prop_none_iff (mem : Mem) (base : Nat) (name : List Nat) (name_len dtb_size : Nat)
    (hnz : ∀ c ∈ name, c ≠ 0) (hn : name.length + 1 ≤ name_len) :
    find_prop mem base name name_len dtb_size = none ↔
      no_occurrence mem base name dtb_size := by
  unfold find_prop no_occurrence
  rw [scan_none_iff]
  constructor
  · intro h i hi hocc
    have := h i (Nat.zero_le i) (by omega)
    rw [decide_eq_false_iff_not] at this
    exact this ((strncmp_eq_zero_iff mem name hnz name_len _ hn).mpr hocc)
  · intro h j _ hj
    rw [decide_eq_false_iff_not]
    intro hs
    exact h j (by omega) ((strncmp_eq_zero_iff mem name hnz name_len _ hn).mp hs)

theorem find_prop_some_iff (mem : Mem) (base : Nat) (name : List Nat)
    (name_len dtb_size i : Nat) (hnz : ∀ c ∈ name, c ≠ 0) (hn : name.length + 1 ≤ name_len) :
    find_prop mem base name name_len dtb_size = some i ↔
      first_occurrence mem base name dtb_size i := by
  unfold find_prop first_occurrence
  rw [scan_some_iff]
  constructor
  · rintro ⟨_, h2, h3, h4⟩
    refine ⟨by omega, ?_, ?_⟩
    · rw [decide_eq_true_iff] at h3
      exact (strncmp_eq_zero_iff mem name hnz name_len _ hn).mp h3
    · intro k hk hocc
      have := h4 k (Nat.zero_le k) hk
      rw [decide_eq_false_iff_not] at this
      exact this ((strncmp_eq_zero_iff mem name hnz name_len _ hn).mpr hocc)
  · rintro ⟨h1, h2, h3⟩
    refine ⟨Nat.zero_le i, by omega, ?_, ?_⟩
    · rw [decide_eq_true_iff]
      exact (strncmp_eq_zero_iff mem name hnz name_len _ hn).mpr h2
    · intro l _ hl
      rw [decide_eq_false_iff_not]
      intro hs
      exact h3 l hl ((strncmp_eq_zero_iff mem name hnz name_len _ hn).mp hs)

theorem first_occurrence_exists (mem : Mem) (base : Nat) (name : List Nat) (dtb_size : Nat)
    (h : ¬ no_occurrence mem base name dtb_size) :
    ∃ i, first_occurrence mem base name dtb_size i := by
  unfold no_occurrence at h
  push_neg at h
  classical
  have hex : ∃ i, i < dtb_size ∧ occurs_at mem name (base + i) := h
  refine ⟨Nat.find hex, (Nat.find_spec hex).1, (Nat.find_spec hex).2, ?_⟩
  intro k hk hocc
  exact Nat.find_min hex hk ⟨lt_trans hk (Nat.find_spec hex).1, hocc⟩

theorem dt_rewrite_name (mem : Mem) (p : Nat) (name : List Nat)
    (name_len value_off v0 v1 : Nat) (h : name_len ≤ value_off) (k : Nat) (hk : k < name_len) :
    dt_rewrite mem p name name_len value_off v0 v1 (p + k) = (c_chars name).getD k 0 := by
  unfold dt_rewrite store64 strncpy
  rw [if_neg (by omega), if_neg (by omega), if_pos (by omega)]
  congr 1
  omega

theorem dt_rewrite_value0 (mem : Mem) (p : Nat) (name : List Nat)
    (name_len value_off v0 v1 : Nat) (d : Nat) (hd : d < 8) :
    dt_rewrite mem p name name_len value_off v0 v1 (p + value_off + d) =
      v0 / 256 ^ d % 256 := by
  unfold dt_rewrite store64
  rw [if_neg (by omega), if_pos (by omega)]
  congr 3
  omega

theorem dt_rewrite_value1 (mem : Mem) (p : Nat) (name : List Nat)
    (name_len value_off v0 v1 : Nat) (d : Nat) (hd : d < 8) :
    dt_rewrite mem p name name_len value_off v0 v1 (p + value_off + 8 + d) =
      v1 / 256 ^ d % 256 := by
  unfold dt_rewrite store64
  rw [if_pos (by omega)]
  congr 3
  omega

/-- Outside the name field and the two values a rewrite changes nothing. -/
theorem dt_rewrite_outside (mem : Mem) (p : Nat) (name : List Nat)
    (name_len value_off v0 v1 : Nat) (h : name_len ≤ value_off) (x : Nat)
    (hx : x < p ∨ p + value_off + 16 ≤ x) :
    dt_rewrite mem p name name_len value_off v0 v1 x = mem x := by
  unfold dt_rewrite store64 strncpy
  rw [if_neg (by omega), if_neg (by omega), if_neg (by omega)]

theorem dt_rewrite_values (mem : Mem) (p : Nat) (name : List Nat)
    (name_len value_off v0 v1 : Nat) :
    load64 (dt_rewrite mem p name name_len value_off v0 v1) (p + value_off) = v0 % 2 ^ 64 ∧
    load64 (dt_rewrite mem p name name_len value_off v0 v1) (p + value_off + 8) =
      v1 % 2 ^ 64 := by
  constructor
  · unfold load64
    have e := dt_rewrite_value0 mem p name name_len value_off v0 v1
    have e0 := e 0 (by norm_num)
    simp only [Nat.add_zero] at e0
    rw [e0, e 1 (by norm_num), e 2 (by norm_num), e 3 (by norm_num), e 4 (by norm_num),
      e 5 (by norm_num), e 6 (by norm_num), e 7 (by norm_num)]
    norm_num
    omega
  · unfold load64
    have e := dt_rewrite_value1 mem p name name_len value_off v0 v1
    have e0 := e 0 (by norm_num)
    simp only [Nat.add_zero] at e0
    rw [e0, e 1 (by norm_num), e 2 (by norm_num), e 3 (by norm_num), e 4 (by norm_num),
      e 5 (by norm_num), e 6 (by norm_num), e 7 (by norm_num)]
    norm_num
    omega

theorem VA2PA_lt (addr : Nat) : VA2PA addr < 2 ^ 32 := by
  unfold VA2PA add64 XNU_KERNEL_BASE
  have h : addr &&& 0x3fffffff ≤ 0x3fffffff := Nat.and_le_right
  omega

/-- An occurrence of a name keeps standing when the bytes it covers are the
same. -/
theorem occurs_at_congr (m1 m2 : Mem) (name : List Nat) (p : Nat)
    (h : ∀ k, k < name.length + 1 → m1 (p + k) = m2 (p + k)) :
    occurs_at m1 name p ↔ occurs_at m2 name p := by
  unfold occurs_at
  constructor
  · intro ho k hk
    rw [← h k hk]
    exact ho k hk
  · intro ho k hk
    rw [h k hk]
    exact ho k hk

/-- The RAMDisk fix-up creates no occurrence of "MemoryMapReserved-1": in the
memory it leaves, every occurrence of that name lies clear of the bytes it
wrote. -/
theorem fixup_creates_no_name (name_len value_off : Nat) (od : xnu_os_data) (m : Mem)
    (a q : Nat) (hN : 20 ≤ name_len) (hv : name_len ≤ value_off)
    (hv2 : value_off < name_len + 15) (hsz : od.ramdisk_size < 2 ^ 56)
    (hocc : occurs_at (ramdisk_rewrite name_len value_off od m a)
      (cstr "MemoryMapReserved-1") q) :
    q + 20 ≤ a ∨ a + value_off + 16 ≤ q := by
  have hchars : ∀ k, k < 19 →
      (cstr "MemoryMapReserved-1").getD k 0 ≠ 0 ∧
      (cstr "MemoryMapReserved-1").getD k 0 ≠ 65 ∧
      (cstr "MemoryMapReserved-1").getD k 0 ≠ 68 ∧
      (cstr "MemoryMapReserved-1").getD k 0 ≠ 105 ∧
      (cstr "MemoryMapReserved-1").getD k 0 ≠ 107 := by decide
  have hlen : (cstr "MemoryMapReserved-1").length = 19 := by decide
  unfold occurs_at at hocc
  rw [hlen] at hocc
  have hG : ∀ x, q ≤ x → x < q + 19 →
      ramdisk_rewrite name_len value_off od m a x ≠ 0 ∧
      ramdisk_rewrite name_len value_off od m a x ≠ 65 ∧
      ramdisk_rewrite name_len value_off od m a x ≠ 68 ∧
      ramdisk_rewrite name_len value_off od m a x ≠ 105 ∧
      ramdisk_rewrite name_len value_off od m a x ≠ 107 := by
    intro x h1 h2
    have e := hocc (x - q) (by omega)
    have ex : q + (x - q) = x := by omega
    rw [ex] at e
    rw [e]
    exact hchars (x - q) (by omega)
  have hend : ramdisk_rewrite name_len value_off od m a (q + 19) = 0 := by
    rw [hocc 19 (by norm_num)]
    decide
  have hR : ∀ t, t < name_len →
      ramdisk_rewrite name_len value_off od m a (a + t) =
        (c_chars (cstr "RAMDisk")).getD t 0 :=
    fun t ht => dt_rewrite_name m a _ name_len value_off _ _ hv t ht
  have hR0 : ramdisk_rewrite name_len value_off od m a a = 82 := by
    have := hR 0 (by omega)
    simpa using this
  have hR1 : ramdisk_rewrite name_len value_off od m a (a + 1) = 65 := hR 1 (by omega)
  have hR3 : ramdisk_rewrite name_len value_off od m a (a + 3) = 68 := hR 3 (by omega)
  have hR4 : ramdisk_rewrite name_len value_off od m a (a + 4) = 105 := hR 4 (by omega)
  have hR6 : ramdisk_rewrite name_len value_off od m a (a + 6) = 107 := hR 6 (by omega)
  have hpad : ∀ x, a + 7 ≤ x → x < a + name_len →
      ramdisk_rewrite name_len value_off od m a x = 0 := by
    intro x h1 h2
    have e := hR (x - a) (by omega)
    have ex : a + (x - a) = x := by omega
    rw [ex] at e
    rw [e]
    apply List.getD_eq_default
    have : (c_chars (cstr "RAMDisk")).length = 7 := by decide
    omega
  have hhigh : ∀ x, a + value_off + 4 ≤ x → x < a + value_off + 8 →
      ramdisk_rewrite name_len value_off od m a x = 0 := by
    intro x h1 h2
    have e := dt_rewrite_value0 m a (cstr "RAMDisk") name_len value_off
      (VA2PA od.ramdisk_load_base) od.ramdisk_size (x - (a + value_off)) (by omega)
    have ex : a + value_off + (x - (a + value_off)) = x := by omega
    rw [ex] at e
    unfold ramdisk_rewrite
    rw [e]
    have hlt := VA2PA_lt od.ramdisk_load_base
    have hpow : (2 : Nat) ^ 32 ≤ 256 ^ (x - (a + value_off)) := by
      have : (256 : Nat) ^ 4 ≤ 256 ^ (x - (a + value_off)) :=
        Nat.pow_le_pow_right (by norm_num) (by omega)
      calc (2 : Nat) ^ 32 = 256 ^ 4 := by norm_num
        _ ≤ _ := this
    rw [Nat.div_eq_of_lt (lt_of_lt_of_le hlt hpow)]
  have htop : ramdisk_rewrite name_len value_off od m a (a + value_off + 15) = 0 := by
    have e := dt_rewrite_value1 m a (cstr "RAMDisk") name_len value_off
      (VA2PA od.ramdisk_load_base) od.ramdisk_size 7 (by norm_num)
    unfold ramdisk_rewrite
    have ex : a + value_off + 8 + 7 = a + value_off + 15 := by omega
    rw [ex] at e
    rw [e]
    have : od.ramdisk_size / 256 ^ 7 = 0 := Nat.div_eq_of_lt (by
      calc od.ramdisk_size < 2 ^ 56 := hsz
        _ = 256 ^ 7 := by norm_num)
    rw [this]
  by_contra hcon
  have hc1 : a < q + 20 := by omega
  have hc2 : q < a + value_off + 16 := by omega
  by_cases h1 : q ≤ a + 1
  · by_cases h2 : q + 19 = a
    · rw [h2, hR0] at hend
      omega
    · by_cases h3 : q + 19 = a + 1
      · rw [h3, hR1] at hend
        omega
      · exact (hG (a + 1) h1 (by omega)).2.1 hR1
  · by_cases h2 : q ≤ a + 3
    · exact (hG (a + 3) h2 (by omega)).2.2.1 hR3
    · by_cases h3 : q ≤ a + 4
      · exact (hG (a + 4) h3 (by omega)).2.2.2.1 hR4
      · by_cases h4 : q ≤ a + 6
        · exact (hG (a + 6) h4 (by omega)).2.2.2.2 hR6
        · by_cases h5 : q < a + name_len
          · exact (hG q (le_refl q) (by omega)).1 (hpad q (by omega) h5)
          · by_cases h6 : q ≤ a + value_off + 4
            · exact (hG (a + value_off + 4) h6 (by omega)).1
                (hhigh (a + value_off + 4) (le_refl _) (by omega))
            · by_cases h7 : q < a + value_off + 8
              · exact (hG q (le_refl q) (by omega)).1 (hhigh q (by omega) h7)
              · exact (hG (a + value_off + 15) (by omega) (by omega)).1 htop

theorem load64_congr (m1 m2 : Mem) (a : Nat) (h : ∀ d, d < 8 → m1 (a + d) = m2 (a + d)) :
    load64 m1 a = load64 m2 a := by
  unfold load64
  have h0 := h 0 (by norm_num)
  simp only [Nat.add_zero] at h0
  rw [h0, h 1 (by norm_num), h 2 (by norm_num), h 3 (by norm_num), h 4 (by norm_num),
    h 5 (by norm_num), h 6 (by norm_num), h 7 (by norm_num)]

/-- In the memory the RAMDisk fix-up leaves, the occurrences of
"MemoryMapReserved-1" are those of the memory before that lie clear of the
bytes it wrote. -/
theorem occurs_after_fixup (name_len value_off : Nat) (od : xnu_os_data) (m : Mem)
    (a q : Nat) (hN : 20 ≤ name_len) (hv : name_len ≤ value_off)
    (hv2 : value_off < name_len + 15) (hsz : od.ramdisk_size < 2 ^ 56) :
    occurs_at (ramdisk_rewrite name_len value_off od m a) (cstr "MemoryMapReserved-1") q ↔
      (occurs_at m (cstr "MemoryMapReserved-1") q ∧
        (q + 20 ≤ a ∨ a + value_off + 16 ≤ q)) := by
  have hlen : (cstr "MemoryMapReserved-1").length = 19 := by decide
  have hsame : (q + 20 ≤ a ∨ a + value_off + 16 ≤ q) →
      (occurs_at (ramdisk_rewrite name_len value_off od m a) (cstr "MemoryMapReserved-1") q ↔
        occurs_at m (cstr "MemoryMapReserved-1") q) := by
    intro hq
    apply occurs_at_congr
    intro k hk
    rw [hlen] at hk
    exact dt_rewrite_outside m a _ name_len value_off _ _ hv (q + k) (by omega)
  constructor
  · intro h
    have hq := fixup_creates_no_name name_len value_off od m a q hN hv hv2 hsz h
    exact ⟨(hsame hq).mp h, hq⟩
  · rintro ⟨h, hq⟩
    exact (hsame hq).mpr h

/-- The same device tree is refused for every name-field length from 21 to 32
bytes, the values standing 4 bytes behind the name field. -/
theorem adjacent_layout_refused_any_length :
    ∀ n, n < 12 →
      (xnu_setup_env setup_ex_layout (21 + n) (25 + n) setup_ex_vm (setup_ex_od 64)
        setup_ex_cmdline dtb_adjacent).1 = -ENOENT := by
  decide

/-- Why the ramdisk size is bounded: a size of `2^56` or more has a non-zero
top byte, and the eight bytes of `value[1]` can then spell the head of a
name.  Here the loaded device tree holds no "MemoryMapReserved-1", the
fix-up completes one, and the result is 0. -/
theorem fixup_can_spell_name :
    no_occurrence dtb_tail (dtb_off setup_ex_vm (setup_ex_od_spelling 96))
      (cstr "MemoryMapReserved-1") (setup_ex_od_spelling 96).dtb_size ∧
    (xnu_setup_env setup_ex_layout 32 36 setup_ex_vm (setup_ex_od_spelling 96)
      setup_ex_cmdline dtb_tail).1 = 0 := by
  decide

theorem virq_counters_track_lists_witness :
    (run_ops ops_ex_desc 3 2 ops_ex).active_count =
      (run_ops ops_ex_desc 3 2 ops_ex).active_list.length ∧
    (run_ops ops_ex_desc 3 2 ops_ex).pending_virq +
        (run_ops ops_ex_desc 3 2 ops_ex).pending_hirq =
      (run_ops ops_ex_desc 3 2 ops_ex).pending_list.length :=
  virq_counters_track_lists ops_ex_desc 3 2 ops_ex (by norm_num)

theorem xnu_layout_ordered_witness :
    (∀ c ∈ layout_ex_od.root,
      (parsed_od layout_ex_fstat 0x2000 layout_ex_mb layout_ex_vm layout_ex_od).kernel_load_base
          ≤ c.vm_addr ∧
      c.vm_addr + c.vm_size ≤
        (parsed_od layout_ex_fstat 0x2000 layout_ex_mb layout_ex_vm
          layout_ex_od).ramdisk_load_base) ∧
    (parsed_od layout_ex_fstat 0x2000 layout_ex_mb layout_ex_vm layout_ex_od).ramdisk_load_base +
        (parsed_od layout_ex_fstat 0x2000 layout_ex_mb layout_ex_vm layout_ex_od).ramdisk_size ≤
      (parsed_od layout_ex_fstat 0x2000 layout_ex_mb layout_ex_vm layout_ex_od).dtb_load_base ∧
    (parsed_od layout_ex_fstat 0x2000 layout_ex_mb layout_ex_vm layout_ex_od).dtb_load_base +
        (parsed_od layout_ex_fstat 0x2000 layout_ex_mb layout_ex_vm layout_ex_od).dtb_size ≤
      (parsed_od layout_ex_fstat 0x2000 layout_ex_mb layout_ex_vm layout_ex_od).bootarg_load_base ∧
    (parsed_od layout_ex_fstat 0x2000 layout_ex_mb layout_ex_vm layout_ex_od).bootarg_load_base +
        0x2000 ≤
      (parsed_od layout_ex_fstat 0x2000 layout_ex_mb layout_ex_vm layout_ex_od).load_end ∧
    (parsed_od layout_ex_fstat 0x2000 layout_ex_mb layout_ex_vm layout_ex_od).load_end %
      0x10000 = 0 :=
  xnu_layout_ordered layout_ex_fstat 0x2000 layout_ex_mb layout_ex_vm layout_ex_od (by decide)

end Minos
